import Mathlib

/-!
# Verification of the portable-content/unistyles-adapter core

This file gives a shallow embedding, in Lean 4, of the self-contained
algorithmic core of the `portable-content/unistyles-adapter` repository:

* `src/utils/index.ts` — `mergeThemes`, `validateTheme`, `getThemeValue`;
* `src/adapter/withTheme.tsx` — `createPortableContentAdapter`,
  `processThemeForUnistyles`, `processBreakpointsForUnistyles`;
* `src/hooks/useBreakpoints.ts` — `useResponsiveValue` (the responsive
  value selector).

JavaScript values are modelled by the inductive type `JVal`: JSON-like
trees whose objects are association lists carrying the object's key
iteration order (for string-keyed records, JS iteration order is
insertion order; the list order of a `JVal.obj` *is* that iteration
order).  Functions stored inside data are modelled by an opaque
`closure` marker (a first-order model cannot store Lean functions inside
`JVal`; nothing in the verified code calls a stored closure).  Arrays
and prototype-chain lookups are outside the model: the adapter operates
on plain data records, `key in obj` is modelled as own-key membership.

JS arithmetic on breakpoint thresholds is modelled by `Int` (all claims
involve integral pixel values, and no overflow is reachable at JS
number magnitudes).  Stateful behaviour (object identity, mutation,
`JSON.parse(JSON.stringify(..))` producing fresh objects) is modelled
separately by a small store-passing semantics (`Store`, `HVal`) in the
second half of the file.
-/

set_option maxHeartbeats 1600000

namespace UnistylesAdapter

/-- Primitive JavaScript values (the non-object leaves of the model). -/
inductive JPrim where
  | str : String → JPrim
  | num : Int → JPrim
  | boolean : Bool → JPrim
  | null : JPrim
  | undefined : JPrim
  deriving DecidableEq, Repr

/-- Tag distinguishing the two utility closures that
`processThemeForUnistyles` attaches to a processed theme
(`withTheme.tsx` lines 330-336).  Closures are opaque in the model. -/
inductive ClosureTag where
  | spacingMul : ClosureTag
  | fontSizeScale : ClosureTag
  deriving DecidableEq, Repr

/-- A JavaScript value: a primitive, an object (association list in key
iteration order), or an opaque function value. -/
inductive JVal where
  | prim : JPrim → JVal
  | obj : List (String × JVal) → JVal
  | closure : ClosureTag → JVal
  deriving Repr

/-- Shorthand for a string value. -/
def JVal.str (s : String) : JVal := .prim (.str s)

/-- Shorthand for a numeric value. -/
def JVal.num (n : Int) : JVal := .prim (.num n)

/-- Shorthand for `undefined`. -/
def JVal.undefined : JVal := .prim .undefined

/-- JS truthiness: `undefined`, `null`, `false`, `0`, and `""` are
falsy; objects and functions are always truthy. -/
def jsTruthy : JVal → Bool
  | .prim (.str s) => !s.isEmpty
  | .prim (.num n) => n != 0
  | .prim (.boolean b) => b
  | .prim .null => false
  | .prim .undefined => false
  | .obj _ => true
  | .closure _ => true

/-- JS `typeof`.  Note `typeof null = "object"`. -/
def jsTypeof : JVal → String
  | .prim (.str _) => "string"
  | .prim (.num _) => "number"
  | .prim (.boolean _) => "boolean"
  | .prim .null => "object"
  | .prim .undefined => "undefined"
  | .obj _ => "object"
  | .closure _ => "function"

/-- Property read `v[k]`: `undefined` for a missing key and for reads
off non-objects (reads off non-objects are guarded in all modelled
code paths). -/
def getField (v : JVal) (k : String) : JVal :=
  match v with
  | .obj fields => (fields.lookup k).getD JVal.undefined
  | _ => JVal.undefined

/-- The JS `k in v` test, restricted to own keys of plain objects. -/
def hasKey (v : JVal) (k : String) : Bool :=
  match v with
  | .obj fields => (fields.lookup k).isSome
  | _ => false

/-!
## Path Resolver: `getThemeValue` (`src/utils/index.ts` lines 137-154)
-/

/-- The loop body of `getThemeValue`: walk the split path one segment at
a time; at each step the source tests
`current && typeof current === 'object' && key in current` and either
descends or returns the fallback immediately. -/
def getThemeValueGo (fallback : JVal) : List String → JVal → JVal
  | [], current => current
  | key :: keys, current =>
    if jsTruthy current && (jsTypeof current == "object") && hasKey current key then
      getThemeValueGo fallback keys (getField current key)
    else
      fallback

/-- The JS `path.split('.')` : split into the (possibly empty)
segments between dots; the split of the empty string is `[""]`. -/
def splitDotAux : List Char → String → List String
  | [], acc => [acc]
  | c :: rest, acc =>
    if c = '.' then acc :: splitDotAux rest ""
    else splitDotAux rest (acc.push c)

/-- Split a string on the dot separator (the JS `split('.')`). -/
def splitDot (s : String) : List String := splitDotAux s.data ""

/-- `getThemeValue(theme, path, fallback)` from `src/utils/index.ts`.
An omitted JS `fallback` argument is the explicit `JVal.undefined`. -/
def getThemeValue (theme : JVal) (path : String) (fallback : JVal) : JVal :=
  getThemeValueGo fallback (splitDot path) theme

/-- Modelled from the spec (§4.3), for comparison with the code: resolve
a segment list against a value, succeeding only when every step is at a
non-null object owning the next key; `none` means unresolvable. -/
def specResolvePath : List String → JVal → Option JVal
  | [], current => some current
  | key :: keys, current =>
    match current with
    | .obj fields =>
      match fields.lookup key with
      | some v => specResolvePath keys v
      | none => none
    | _ => none

/-!
## Object update and spread

JS object literals with spreads, such as the result literal of
`mergeThemes`, build a field list left to right: a spread contributes
the source fields one by one, and setting a property that already
exists updates it in place (keeping its position in iteration order)
while a new property is appended at the end.
-/

/-- Property write semantics on a field list: update the existing entry
in place, or append a fresh one. -/
def setFieldList {β : Type _} (fields : List (String × β)) (k : String) (v : β) :
    List (String × β) :=
  match fields with
  | [] => [(k, v)]
  | (k0, v0) :: rest =>
    if k0 = k then (k0, v) :: rest else (k0, v0) :: setFieldList rest k v

/-- The field list of an object literal that spreads `a` and then `b`
(semantics of a JS double spread). -/
def spreadFields {β : Type _} (a b : List (String × β)) : List (String × β) :=
  b.foldl (fun acc kv => setFieldList acc kv.1 kv.2) a

/-- Property write on a value (no-op off objects; all modelled writes
target objects). -/
def setField (v : JVal) (k : String) (nv : JVal) : JVal :=
  match v with
  | .obj fields => .obj (setFieldList fields k nv)
  | _ => v

/-- The fields a value contributes when used as a spread source:
objects contribute their own fields; `undefined`, `null` and the other
primitives contribute nothing.  (Spreading a string would contribute
index keys; the adapter only ever spreads theme sections, which are
typed as objects when present.) -/
def fieldsOf : JVal → List (String × JVal)
  | .obj fields => fields
  | _ => []

/-!
## Merger: `mergeThemes` (`src/utils/index.ts` lines 51-87)
-/

/-- `mergeThemes(baseTheme, overrides)`: the object literal
`{...baseTheme, ...overrides, colors: {...}, spacing: {...},
typography: {...}}` where `colors`, `spacing` and the four typography
sub-sections are double spreads of the corresponding sections
(`overrides.typography?.fontSize` is an optional-chained read, i.e.
`undefined` when `overrides` has no typography, which spreads to
nothing). -/
def mergeThemes (baseTheme overrides : JVal) : JVal :=
  let mergedColors : JVal :=
    .obj (spreadFields (fieldsOf (getField baseTheme "colors"))
      (fieldsOf (getField overrides "colors")))
  let mergedSpacing : JVal :=
    .obj (spreadFields (fieldsOf (getField baseTheme "spacing"))
      (fieldsOf (getField overrides "spacing")))
  let mergedFontSize : JVal :=
    .obj (spreadFields (fieldsOf (getField (getField baseTheme "typography") "fontSize"))
      (fieldsOf (getField (getField overrides "typography") "fontSize")))
  let mergedFontWeight : JVal :=
    .obj (spreadFields (fieldsOf (getField (getField baseTheme "typography") "fontWeight"))
      (fieldsOf (getField (getField overrides "typography") "fontWeight")))
  let mergedLineHeight : JVal :=
    .obj (spreadFields (fieldsOf (getField (getField baseTheme "typography") "lineHeight"))
      (fieldsOf (getField (getField overrides "typography") "lineHeight")))
  let mergedFontFamily : JVal :=
    .obj (spreadFields (fieldsOf (getField (getField baseTheme "typography") "fontFamily"))
      (fieldsOf (getField (getField overrides "typography") "fontFamily")))
  let mergedTypography : JVal :=
    .obj (setFieldList (setFieldList (setFieldList (setFieldList
      (spreadFields (fieldsOf (getField baseTheme "typography"))
        (fieldsOf (getField overrides "typography")))
      "fontSize" mergedFontSize) "fontWeight" mergedFontWeight)
      "lineHeight" mergedLineHeight) "fontFamily" mergedFontFamily)
  .obj (setFieldList (setFieldList (setFieldList
    (spreadFields (fieldsOf baseTheme) (fieldsOf overrides))
    "colors" mergedColors) "spacing" mergedSpacing) "typography" mergedTypography)

/-- A value is an acceptable spread source for the merge lemmas when,
if it is an object, its keys are distinct (JS objects cannot carry
duplicate string keys). -/
def spreadOk (v : JVal) : Bool :=
  match v with
  | .obj fields => decide (fields.map Prod.fst).Nodup
  | _ => true

/-!
## Validator: `validateTheme` (`src/utils/index.ts` lines 95-274)
-/

/-- The six required color keys. -/
def requiredColors : List String :=
  ["primary", "secondary", "background", "surface", "text", "textSecondary"]

/-- The five required spacing keys. -/
def requiredSpacing : List String := ["xs", "sm", "md", "lg", "xl"]

/-- The four required font size keys. -/
def requiredFontSizes : List String := ["sm", "md", "lg", "xl"]

/-- `validateColors` (private helper, lines 211-233). -/
def validateColors (colors : JVal) : Bool :=
  if !jsTruthy colors || jsTypeof colors != "object" then false
  else requiredColors.all (fun colorName =>
    hasKey colors colorName && (jsTypeof (getField colors colorName) == "string"))

/-- `validateSpacing` (private helper, lines 235-250). -/
def validateSpacing (spacing : JVal) : Bool :=
  if !jsTruthy spacing || jsTypeof spacing != "object" then false
  else requiredSpacing.all (fun spacingName =>
    hasKey spacing spacingName && (jsTypeof (getField spacing spacingName) == "number"))

/-- `validateTypography` (private helper, lines 252-274). -/
def validateTypography (typography : JVal) : Bool :=
  if !jsTruthy typography || jsTypeof typography != "object" then false
  else if !jsTruthy (getField typography "fontSize")
      || jsTypeof (getField typography "fontSize") != "object" then false
  else requiredFontSizes.all (fun fontSize =>
    hasKey (getField typography "fontSize") fontSize
      && (jsTypeof (getField (getField typography "fontSize") fontSize) == "number"))

/-- `validateTheme(theme)` from `src/utils/index.ts`. -/
def validateTheme (theme : JVal) : Bool :=
  if !jsTruthy theme || jsTypeof theme != "object" then false
  else if !jsTruthy (getField theme "colors") || !jsTruthy (getField theme "spacing")
      || !jsTruthy (getField theme "typography") then false
  else validateColors (getField theme "colors")
    && validateSpacing (getField theme "spacing")
    && validateTypography (getField theme "typography")

/-- A section owns key `k` with a value of `typeof` result `ty`. -/
def ownsTyped (sec : JVal) (k : String) (ty : String) : Bool :=
  match sec with
  | .obj fields =>
    match fields.lookup k with
    | some v => jsTypeof v == ty
    | none => false
  | _ => false

/-- Modelled from the spec (§4.1), for comparison with the code: a
candidate is valid when it is a (truthy) object whose colors section
owns the six required string-typed keys, whose spacing section owns the
five required number-typed keys, and whose typography.fontSize section
owns the four required number-typed keys; nothing else is inspected. -/
def specValidTheme (candidate : JVal) : Bool :=
  jsTruthy candidate && (jsTypeof candidate == "object")
    && requiredColors.all (fun k => ownsTyped (getField candidate "colors") k "string")
    && requiredSpacing.all (fun k => ownsTyped (getField candidate "spacing") k "number")
    && requiredFontSizes.all (fun k =>
      ownsTyped (getField (getField candidate "typography") "fontSize") k "number")

/-!
## Stable sort by an integer key

`Array.prototype.sort` with the numeric comparator `(a, b) => a - b`
(used both by `processBreakpointsForUnistyles` and by
`useResponsiveValue`) is a stable ascending sort; it is modelled by a
stable insertion sort.
-/

/-- Insert an element into a list sorted ascending by `key`, before the
first element whose key is not smaller (so an element is placed before
later equal-keyed elements: stability). -/
def insertByKey {α : Type _} (key : α → Int) (x : α) : List α → List α
  | [] => [x]
  | y :: ys => if key y < key x then y :: insertByKey key x ys else x :: y :: ys

/-- Stable ascending sort by an integer key. -/
def sortByKey {α : Type _} (key : α → Int) : List α → List α
  | [] => []
  | x :: xs => insertByKey key x (sortByKey key xs)

/-!
## Breakpoint Normalizer: `processBreakpointsForUnistyles`
(`src/adapter/withTheme.tsx` lines 345-359)

The source sorts `Object.entries(breakpoints)` by value and re-inserts
the entries into a fresh object in that order; since a JS object has
distinct keys, the iteration order of the result is exactly the sorted
entry order, which the association list represents directly.
-/

/-- `processBreakpointsForUnistyles(breakpoints)`. -/
def processBreakpointsForUnistyles (breakpoints : List (String × Int)) :
    List (String × Int) :=
  sortByKey (fun e => e.2) breakpoints

/-!
## Responsive Value Selector: `useResponsiveValue`
(`src/hooks/useBreakpoints.ts` lines 183-214)

The breakpoint registry is modelled as a total map `String → Int`: the
TS type of the value map restricts its keys to keys of the breakpoint
registry, and the selector reads the registry only at those keys.

A responsive value map is a `List (String × Option T)` in iteration
order; an entry carrying `none` models a key explicitly set to
`undefined` (which the selector filters out, like an absent key).
-/

/-- Read `values[bp]`: the stored value, or `undefined` (`none`) when
the key is absent. -/
def jsGetValue {T : Type _} (values : List (String × Option T)) (bp : String) : Option T :=
  (values.lookup bp).getD none

/-- The selection loop: walk the ascending list, remember the last
breakpoint whose threshold is at most the width, stop at the first that
is not. -/
def selectLoop (breakpoints : String → Int) (screenWidth : Int) :
    List String → Option String → Option String
  | [], selected => selected
  | bp :: rest, selected =>
    if breakpoints bp ≤ screenWidth then
      selectLoop breakpoints screenWidth rest (some bp)
    else selected

/-- `useResponsiveValue(values)` with the runtime state (breakpoint
registry and screen width) passed explicitly.  The final line of the
source tests the selected breakpoint NAME for truthiness, so a selected
empty-string name yields `undefined`. -/
def useResponsiveValue {T : Type _} (breakpoints : String → Int)
    (values : List (String × Option T)) (screenWidth : Int) : Option T :=
  let availableBreakpoints :=
    sortByKey breakpoints
      ((values.map Prod.fst).filter (fun bp => (jsGetValue values bp).isSome))
  match selectLoop breakpoints screenWidth availableBreakpoints none with
  | some selectedBreakpoint =>
    if selectedBreakpoint.isEmpty then none else jsGetValue values selectedBreakpoint
  | none => none

/-!
## Adapter construction (`src/adapter/withTheme.tsx` lines 229-359)
-/

/-- JSON.stringify keeps a field exactly when its value is neither
`undefined` nor a function. -/
def jsonKeep : JVal → Bool
  | .prim .undefined => false
  | .closure _ => false
  | _ => true

mutual

/-- The value image of `JSON.parse(JSON.stringify(v))`: primitives
serialize to themselves, objects to objects with `undefined`-valued and
function-valued fields dropped.  (A top-level `undefined` or function
does not round-trip in JS; those cases are unreachable in the adapter,
which only clones validated theme objects, and are mapped to
themselves here.) -/
def jsonClone : JVal → JVal
  | .obj fields => .obj (jsonCloneFields fields)
  | v => v

/-- Field-list part of `jsonClone`. -/
def jsonCloneFields : List (String × JVal) → List (String × JVal)
  | [] => []
  | (k, v) :: rest =>
    if jsonKeep v then (k, jsonClone v) :: jsonCloneFields rest
    else jsonCloneFields rest

end

/-- The utility object attached by `processThemeForUnistyles` (lines
330-336): two closures over the processed theme, opaque in the model. -/
def utilsClosures : JVal :=
  .obj [("spacing", .closure .spacingMul), ("fontSize", .closure .fontSizeScale)]

/-- `processThemeForUnistyles(theme)` (lines 306-339): deep-clone via
the JSON round-trip, re-check the three sections defensively (throwing
on failure), and attach the `utils` closures when the theme has no
truthy `utils` field. -/
def processThemeForUnistyles (theme : JVal) : Except String JVal :=
  let processedTheme := jsonClone theme
  if !jsTruthy (getField processedTheme "colors") then
    .error "Theme must include a colors object"
  else if !jsTruthy (getField processedTheme "spacing") then
    .error "Theme must include a spacing object"
  else if !jsTruthy (getField processedTheme "typography") then
    .error "Theme must include a typography object"
  else if !jsTruthy (getField processedTheme "utils") then
    .ok (setField processedTheme "utils" utilsClosures)
  else .ok processedTheme

/-- The `Object.entries(themes).reduce` loop of lines 259-265: process
each theme in iteration order; the first processing throw aborts. -/
def processAllThemes : List (String × JVal) → Except String (List (String × JVal))
  | [] => .ok []
  | (name, theme) :: rest =>
    match processThemeForUnistyles theme with
    | .error e => .error e
    | .ok pt =>
      match processAllThemes rest with
      | .error e => .error e
      | .ok prest => .ok ((name, pt) :: prest)

/-- The distinguishable construction failures (spec §7).  The
`processingError` variant carries the message of a throw inside
`processThemeForUnistyles`; such throws are proved unreachable after
validation. -/
inductive AdapterError where
  | missingThemes : AdapterError
  | missingBreakpoints : AdapterError
  | missingZeroBreakpoint : AdapterError
  | invalidThemeStructure (name : String) : AdapterError
  | processingError (msg : String) : AdapterError
  deriving DecidableEq, Repr

/-- Construction input: `themes` and `breakpoints`, each `none` when
absent/falsy.  (The opaque `settings` pass-through carries no logic and
is not modelled.) -/
structure AdapterConfig where
  themes : Option (List (String × JVal))
  breakpoints : Option (List (String × Int))

/-- The bundle assembled on success: processed themes and processed
breakpoints, both in iteration order.  The bound utility closures of
the bundle are modelled as standalone functions (see
`adapterUtilsGetThemeValue`); the other three utils are unbound
re-exports of the standalone functions. -/
structure AdapterBundle where
  themes : List (String × JVal)
  breakpoints : List (String × Int)

/-- `createPortableContentAdapter(config)` (lines 229-300). -/
def createPortableContentAdapter (config : AdapterConfig) :
    Except AdapterError AdapterBundle :=
  match config.themes with
  | none => .error .missingThemes
  | some themes =>
    if themes.length = 0 then .error .missingThemes
    else
      match config.breakpoints with
      | none => .error .missingBreakpoints
      | some breakpoints =>
        if !(breakpoints.map Prod.snd).contains 0 then .error .missingZeroBreakpoint
        else
          match themes.find? (fun nt => !validateTheme nt.2) with
          | some nt => .error (.invalidThemeStructure nt.1)
          | none =>
            match processAllThemes themes with
            | .error msg => .error (.processingError msg)
            | .ok processedThemes =>
              .ok { themes := processedThemes,
                    breakpoints := processBreakpointsForUnistyles breakpoints }

/-- The bound `utils.getThemeValue` of the bundle (lines 272-275): it
resolves every path against `Object.values(processedThemes)[0]`, the
first processed theme in iteration order. -/
def adapterUtilsGetThemeValue (processedThemes : List (String × JVal))
    (path : String) (fallback : JVal) : JVal :=
  getThemeValue (((processedThemes.map Prod.snd).head?).getD JVal.undefined) path fallback

/-!
## Store-passing model of object identity

The claims about mutation (C9) and aliasing (C8) are about object
identity, which the tree model erases.  This section gives a small
store semantics: a `Store` is a list of object records, an address is a
list index, and allocation appends.  Mutating an existing object would
replace its record at its address; the theorems show the adapter
operations never do so.
-/

/-- A heap value: a primitive or a reference to an object record. -/
inductive HVal where
  | prim : JPrim → HVal
  | ref : Nat → HVal
  deriving DecidableEq, Repr

/-- An object record: fields in iteration order. -/
abbrev HObj := List (String × HVal)

/-- The store: records indexed by address; allocation appends. -/
abbrev Store := List HObj

/-- Allocate a fresh object holding `fields`; returns its address. -/
def allocStore (σ : Store) (fields : HObj) : Store × Nat :=
  (σ ++ [fields], σ.length)

/-- Property read from a field list. -/
def hGetField (fields : HObj) (k : String) : HVal :=
  (fields.lookup k).getD (.prim .undefined)

/-- The fields a heap value contributes as a spread source: a
reference contributes the referenced record, primitives contribute
nothing. -/
def fieldsOfH (σ : Store) : HVal → HObj
  | .ref a => (σ[a]?).getD []
  | _ => []

/-- Store-level `mergeThemes(base, overrides)`: the same spreads as the
tree-level `mergeThemes`, but reading through references and
allocating each object literal (inner literals first, the result
literal last, as JS evaluates them). -/
def mergeThemesH (σ : Store) (baseRef overridesRef : Nat) : Store × Nat :=
  let baseFields := (σ[baseRef]?).getD []
  let overrideFields := (σ[overridesRef]?).getD []
  let p1 := allocStore σ (spreadFields (fieldsOfH σ (hGetField baseFields "colors"))
    (fieldsOfH σ (hGetField overrideFields "colors")))
  let σ1 := p1.1
  let p2 := allocStore σ1 (spreadFields (fieldsOfH σ1 (hGetField baseFields "spacing"))
    (fieldsOfH σ1 (hGetField overrideFields "spacing")))
  let σ2 := p2.1
  let baseTypo := fieldsOfH σ2 (hGetField baseFields "typography")
  let overrideTypo := fieldsOfH σ2 (hGetField overrideFields "typography")
  let p3 := allocStore σ2 (spreadFields (fieldsOfH σ2 (hGetField baseTypo "fontSize"))
    (fieldsOfH σ2 (hGetField overrideTypo "fontSize")))
  let σ3 := p3.1
  let p4 := allocStore σ3 (spreadFields (fieldsOfH σ3 (hGetField baseTypo "fontWeight"))
    (fieldsOfH σ3 (hGetField overrideTypo "fontWeight")))
  let σ4 := p4.1
  let p5 := allocStore σ4 (spreadFields (fieldsOfH σ4 (hGetField baseTypo "lineHeight"))
    (fieldsOfH σ4 (hGetField overrideTypo "lineHeight")))
  let σ5 := p5.1
  let p6 := allocStore σ5 (spreadFields (fieldsOfH σ5 (hGetField baseTypo "fontFamily"))
    (fieldsOfH σ5 (hGetField overrideTypo "fontFamily")))
  let σ6 := p6.1
  let p7 := allocStore σ6 (setFieldList (setFieldList (setFieldList (setFieldList
    (spreadFields baseTypo overrideTypo)
    "fontSize" (.ref p3.2)) "fontWeight" (.ref p4.2))
    "lineHeight" (.ref p5.2)) "fontFamily" (.ref p6.2))
  let σ7 := p7.1
  let p8 := allocStore σ7 (setFieldList (setFieldList (setFieldList
    (spreadFields baseFields overrideFields)
    "colors" (.ref p1.2)) "spacing" (.ref p2.2)) "typography" (.ref p7.2))
  (p8.1, p8.2)

mutual

/-- Materialize a value tree in the store, allocating a fresh object
record for every object node (the effect of `JSON.parse` on the
serialized theme: an all-fresh structure).  Closures are not
representable in a JSON image; a stray one maps to `undefined`
(unreachable after `jsonClone`). -/
def writeTree : Store → JVal → Store × HVal
  | σ, .prim p => (σ, .prim p)
  | σ, .closure _ => (σ, .prim .undefined)
  | σ, .obj fields =>
    let p := writeFields σ fields
    (p.1 ++ [p.2], .ref p.1.length)

/-- Field-list part of `writeTree`. -/
def writeFields : Store → List (String × JVal) → Store × HObj
  | σ, [] => (σ, [])
  | σ, (k, v) :: rest =>
    let p := writeTree σ v
    let q := writeFields p.1 rest
    (q.1, (k, p.2) :: q.2)

end

mutual

/-- Read a value tree back out of the store, with fuel bounding the
dereferencing depth. -/
def readTree : Nat → Store → HVal → Option JVal
  | 0, _, _ => none
  | _ + 1, _, .prim p => some (.prim p)
  | fuel + 1, σ, .ref a =>
    match σ[a]? with
    | none => none
    | some fields => (readFields fuel σ fields).map JVal.obj
termination_by fuel _ _ => (fuel, 0)

/-- Field-list part of `readTree`. -/
def readFields : Nat → Store → List (String × HVal) → Option (List (String × JVal))
  | _, _, [] => some []
  | fuel, σ, (k, hv) :: rest => do
    let v ← readTree fuel σ hv
    let vrest ← readFields fuel σ rest
    pure ((k, v) :: vrest)
termination_by fuel _ fields => (fuel, fields.length + 1)

end

/-- All references in a heap value point at or above address `n`. -/
def refGE (n : Nat) : HVal → Prop
  | .prim _ => True
  | .ref a => n ≤ a

/-- All references in a record point at or above address `n`. -/
def fieldsRefGE (n : Nat) (fields : HObj) : Prop :=
  ∀ kv ∈ fields, refGE n kv.2

/-- Store-level theme clone of `processThemeForUnistyles` line 310:
`JSON.parse(JSON.stringify(theme))` materializes the JSON image of the
caller theme value `t` as an all-fresh structure in the store. -/
def processThemeCloneH (σ : Store) (t : JVal) : Store × HVal :=
  writeTree σ (jsonClone t)

/-- A breakpoint name is considered by the selector when it is a key of
the value map carrying a defined value. -/
def considered {T : Type _} (values : List (String × Option T)) (bp : String) : Prop :=
  bp ∈ values.map Prod.fst ∧ (jsGetValue values bp).isSome

instance consideredDecidable {T : Type _} (values : List (String × Option T)) (bp : String) :
    Decidable (considered values bp) :=
  decidable_of_iff (bp ∈ values.map Prod.fst ∧ (jsGetValue values bp).isSome = true) Iff.rfl

/-- The ascending list of considered breakpoint names built by
`useResponsiveValue` before its selection loop. -/
def availList {T : Type _} (breakpoints : String → Int)
    (values : List (String × Option T)) : List String :=
  sortByKey breakpoints
    ((values.map Prod.fst).filter (fun bp => (jsGetValue values bp).isSome))

/-- The breakpoint registry of the worked example in the spec:
`{xs: 0, md: 768, lg: 992}`. -/
def exampleBp : String → Int := fun k =>
  if k = "xs" then 0 else if k = "md" then 768 else if k = "lg" then 992 else 0

/-- The value map of the worked example: `{xs: 1, md: 3, lg: 4}`. -/
def exampleValues : List (String × Option Int) :=
  [("xs", some 1), ("md", some 3), ("lg", some 4)]

/-- A degenerate breakpoint registry mapping every name to 0. -/
def constBp0 : String → Int := fun _ => 0

/-- Breakpoint registry with a tie: a and b share threshold 0, c is 10. -/
def tieBp : String → Int := fun k => if k = "c" then 10 else 0

/-- Value map defining all three tied-example breakpoints. -/
def tieValues : List (String × Option Int) :=
  [("a", some 1), ("b", some 2), ("c", some 3)]

/-!
## Concrete inputs used by worked examples and witnesses
-/

/-- A concrete colors section with the six required keys. -/
def validColorsFields : List (String × JVal) :=
  [("primary", .str "#007AFF"), ("secondary", .str "#5856D6"),
   ("background", .str "#FFFFFF"), ("surface", .str "#F2F2F7"),
   ("text", .str "#000000"), ("textSecondary", .str "#3C3C43")]

/-- A concrete spacing section with the five required keys. -/
def validSpacingFields : List (String × JVal) :=
  [("xs", .num 4), ("sm", .num 8), ("md", .num 16), ("lg", .num 24), ("xl", .num 32)]

/-- A concrete fontSize section with the four required keys. -/
def validFontSizeFields : List (String × JVal) :=
  [("sm", .num 14), ("md", .num 16), ("lg", .num 18), ("xl", .num 24)]

/-- The fields of a concrete valid theme (typography carries only the
mandatory fontSize sub-section). -/
def validThemeFields : List (String × JVal) :=
  [("colors", .obj validColorsFields), ("spacing", .obj validSpacingFields),
   ("typography", .obj [("fontSize", .obj validFontSizeFields)])]

/-- A concrete valid theme. -/
def exValidTheme : JVal := .obj validThemeFields

/-- A second valid theme differing from `exValidTheme` at colors.primary. -/
def exValidTheme2 : JVal :=
  .obj (setFieldList validThemeFields "colors"
    (.obj (setFieldList validColorsFields "primary" (.str "#AA0000"))))

/-- The partial override `{colors: {primary: "#FF0000"}}` of the worked
merge example. -/
def overridePrimary : JVal := .obj [("colors", .obj [("primary", .str "#FF0000")])]

/-- A two-theme construction input: the themes differ at colors.primary. -/
def exConfig2 : AdapterConfig :=
  ⟨some [("light", exValidTheme), ("dark", exValidTheme2)], some [("xs", 0), ("sm", 576)]⟩

/-- The bundle produced for `exConfig2` (construction succeeds). -/
def exBundle2 : AdapterBundle :=
  match createPortableContentAdapter exConfig2 with
  | .ok b => b
  | .error _ => ⟨[], []⟩

/-- The processed form of `exValidTheme`. -/
def exProcessedTheme : JVal :=
  match processThemeForUnistyles exValidTheme with
  | .ok v => v
  | .error _ => JVal.undefined

/-!
## Association-list lemmas
-/

theorem lookup_setFieldList_self {β : Type _} (fields : List (String × β)) (k : String) (v : β) :
    (setFieldList fields k v).lookup k = some v := by
  induction fields with
  | nil => simp [setFieldList, List.lookup]
  | cons kv rest ih =>
    obtain ⟨k0, v0⟩ := kv
    by_cases h : k0 = k
    · subst h
      simp [setFieldList, List.lookup]
    · simp only [setFieldList, if_neg h, List.lookup]
      have : (k == k0) = false := by
        simp [beq_eq_false_iff_ne]
        exact fun hk => h hk.symm
      simp [this, ih]

theorem lookup_setFieldList_ne {β : Type _} (fields : List (String × β)) {k k1 : String}
    (v : β) (hk : k1 ≠ k) :
    (setFieldList fields k v).lookup k1 = fields.lookup k1 := by
  induction fields with
  | nil =>
    have : (k1 == k) = false := by simp [beq_eq_false_iff_ne, hk]
    simp [setFieldList, List.lookup, this]
  | cons kv rest ih =>
    obtain ⟨k0, v0⟩ := kv
    by_cases h : k0 = k
    · subst h
      have : (k1 == k0) = false := by simp [beq_eq_false_iff_ne, hk]
      simp [setFieldList, List.lookup, this]
    · simp only [setFieldList, if_neg h, List.lookup]
      cases hbe : (k1 == k0) <;> simp [ih]

theorem lookup_isSome_iff_mem_keys {β : Type _} (fields : List (String × β)) (k : String) :
    (fields.lookup k).isSome ↔ k ∈ fields.map Prod.fst := by
  induction fields with
  | nil => simp [List.lookup]
  | cons kv rest ih =>
    obtain ⟨k0, v0⟩ := kv
    by_cases h : k = k0
    · subst h
      simp [List.lookup]
    · have : (k == k0) = false := by simp [beq_eq_false_iff_ne, h]
      simp [List.lookup, this, ih, h]

theorem lookup_eq_none_of_not_mem_keys {β : Type _} {fields : List (String × β)} {k : String}
    (h : k ∉ fields.map Prod.fst) : fields.lookup k = none := by
  have := (lookup_isSome_iff_mem_keys fields k).not.mpr h
  cases hl : fields.lookup k with
  | none => rfl
  | some v => rw [hl] at this; simp at this

theorem lookup_spreadFields {β : Type _} (a : List (String × β)) {b : List (String × β)}
    (hb : (b.map Prod.fst).Nodup) (k : String) :
    (spreadFields a b).lookup k =
      match b.lookup k with
      | some v => some v
      | none => a.lookup k := by
  induction b generalizing a with
  | nil => simp [spreadFields, List.lookup]
  | cons kv rest ih =>
    obtain ⟨k0, v0⟩ := kv
    simp only [List.map_cons, List.nodup_cons] at hb
    have hrest := ih (a := setFieldList a k0 v0) hb.2
    have hstep : spreadFields a ((k0, v0) :: rest) = spreadFields (setFieldList a k0 v0) rest := by
      simp [spreadFields, List.foldl_cons]
    rw [hstep, hrest]
    by_cases h : k = k0
    · subst h
      have hnone : rest.lookup k = none :=
        lookup_eq_none_of_not_mem_keys hb.1
      simp [List.lookup, hnone, lookup_setFieldList_self]
    · have : (k == k0) = false := by simp [beq_eq_false_iff_ne, h]
      simp [List.lookup, this, lookup_setFieldList_ne _ _ h]

theorem lookup_spreadFields_isSome {β : Type _} (a : List (String × β))
    {b : List (String × β)} (hb : (b.map Prod.fst).Nodup) (k : String) :
    ((spreadFields a b).lookup k).isSome =
      ((a.lookup k).isSome || (b.lookup k).isSome) := by
  rw [lookup_spreadFields a hb k]
  cases b.lookup k <;> simp

theorem lookup_setFieldList_isSome {β : Type _} (fields : List (String × β))
    (k k1 : String) (v : β) :
    ((setFieldList fields k v).lookup k1).isSome =
      ((fields.lookup k1).isSome || (k1 == k)) := by
  by_cases h : k1 = k
  · subst h
    simp [lookup_setFieldList_self]
  · simp [lookup_setFieldList_ne _ _ h, h]

/-!
## Stable sort lemmas
-/

theorem mem_insertByKey {α : Type _} (key : α → Int) (x a : α) (l : List α) :
    a ∈ insertByKey key x l ↔ a = x ∨ a ∈ l := by
  induction l with
  | nil => simp [insertByKey]
  | cons y ys ih =>
    by_cases h : key y < key x
    · simp only [insertByKey, if_pos h, List.mem_cons, ih]
      tauto
    · simp only [insertByKey, if_neg h, List.mem_cons]

theorem perm_sortByKey {α : Type _} (key : α → Int) (l : List α) :
    (sortByKey key l).Perm l := by
  induction l with
  | nil => simp [sortByKey]
  | cons x xs ih =>
    have hperm : (insertByKey key x (sortByKey key xs)).Perm (x :: sortByKey key xs) := by
      clear ih
      induction sortByKey key xs with
      | nil => simp [insertByKey]
      | cons y ys ihy =>
        by_cases h : key y < key x
        · simp only [insertByKey, if_pos h]
          exact List.Perm.trans (List.Perm.cons y ihy) (List.Perm.swap x y ys)
        · simp [insertByKey, if_neg h]
    exact List.Perm.trans hperm (List.Perm.cons x ih)

theorem mem_sortByKey {α : Type _} (key : α → Int) (a : α) (l : List α) :
    a ∈ sortByKey key l ↔ a ∈ l :=
  (perm_sortByKey key l).mem_iff

theorem pairwise_insertByKey {α : Type _} (key : α → Int) (x : α) {l : List α}
    (h : l.Pairwise (fun a b => key a ≤ key b)) :
    (insertByKey key x l).Pairwise (fun a b => key a ≤ key b) := by
  induction l with
  | nil => simp [insertByKey]
  | cons y ys ih =>
    rw [List.pairwise_cons] at h
    by_cases hlt : key y < key x
    · simp only [insertByKey, if_pos hlt, List.pairwise_cons]
      refine ⟨?_, ih h.2⟩
      intro b hb
      rcases (mem_insertByKey key x b ys).mp hb with rfl | hb
      · exact le_of_lt hlt
      · exact h.1 b hb
    · simp only [insertByKey, if_neg hlt, List.pairwise_cons]
      push_neg at hlt
      refine ⟨?_, h.1, h.2⟩
      intro b hb
      rcases List.mem_cons.mp hb with rfl | hb
      · exact hlt
      · exact le_trans hlt (h.1 b hb)

theorem pairwise_sortByKey {α : Type _} (key : α → Int) (l : List α) :
    (sortByKey key l).Pairwise (fun a b => key a ≤ key b) := by
  induction l with
  | nil => simp [sortByKey]
  | cons x xs ih => exact pairwise_insertByKey key x ih

theorem filter_insertByKey {α : Type _} (key : α → Int) (x : α) (l : List α) (v : Int) :
    (insertByKey key x l).filter (fun a => decide (key a = v)) =
      if key x = v then x :: l.filter (fun a => decide (key a = v))
      else l.filter (fun a => decide (key a = v)) := by
  induction l with
  | nil => by_cases h : key x = v <;> simp [insertByKey, h]
  | cons y ys ih =>
    by_cases hlt : key y < key x
    · simp only [insertByKey, if_pos hlt]
      by_cases hx : key x = v
      · have hy : ¬ (key y = v) := by omega
        simp [List.filter_cons, hx, hy, ih]
      · by_cases hy : key y = v <;> simp [List.filter_cons, hx, hy, ih]
    · simp only [insertByKey, if_neg hlt]
      by_cases hx : key x = v
      · rw [if_pos hx]
        simp [List.filter_cons, hx]
      · rw [if_neg hx]
        simp [List.filter_cons, hx]

theorem filter_sortByKey {α : Type _} (key : α → Int) (l : List α) (v : Int) :
    (sortByKey key l).filter (fun a => decide (key a = v)) =
      l.filter (fun a => decide (key a = v)) := by
  induction l with
  | nil => simp [sortByKey]
  | cons x xs ih =>
    by_cases hx : key x = v <;>
      simp [sortByKey, filter_insertByKey, hx, List.filter_cons, ih]

theorem takeWhile_eq_filter_of_sorted {α : Type _} {key : α → Int} (w : Int) :
    ∀ {l : List α}, l.Pairwise (fun a b => key a ≤ key b) →
      l.takeWhile (fun a => decide (key a ≤ w)) = l.filter (fun a => decide (key a ≤ w)) := by
  intro l
  induction l with
  | nil => intro _; rfl
  | cons a l ih =>
    intro h
    rw [List.pairwise_cons] at h
    by_cases ha : key a ≤ w
    · simp [List.takeWhile_cons, List.filter_cons, ha, ih h.2]
    · have hfil : l.filter (fun a => decide (key a ≤ w)) = [] := by
        rw [List.filter_eq_nil_iff]
        intro b hb
        have := h.1 b hb
        simp only [decide_eq_true_eq]
        omega
      simp [List.takeWhile_cons, List.filter_cons, ha, hfil]

theorem selectLoop_eq_takeWhile (breakpoints : String → Int) (screenWidth : Int) :
    ∀ (l : List String) (acc : Option String),
      selectLoop breakpoints screenWidth l acc =
        match (l.takeWhile (fun b => decide (breakpoints b ≤ screenWidth))).getLast? with
        | some b => some b
        | none => acc := by
  intro l
  induction l with
  | nil => intro acc; rfl
  | cons b rest ih =>
    intro acc
    by_cases hb : breakpoints b ≤ screenWidth
    · have hbd : (decide (breakpoints b ≤ screenWidth)) = true := decide_eq_true hb
      rw [selectLoop, if_pos hb, ih, List.takeWhile_cons, hbd]
      simp only [if_true]
      cases htw : rest.takeWhile (fun b => decide (breakpoints b ≤ screenWidth)) with
      | nil => simp
      | cons c l2 =>
        rw [List.getLast?_cons_cons]
        cases h2 : (c :: l2).getLast? with
        | none => simp [List.getLast?_eq_none_iff] at h2
        | some d => rfl
    · have hbd : (decide (breakpoints b ≤ screenWidth)) = false := decide_eq_false hb
      rw [selectLoop, if_neg hb, List.takeWhile_cons, hbd]
      simp

theorem getLast?_mem {α : Type _} : ∀ {l : List α} {m : α}, l.getLast? = some m → m ∈ l := by
  intro l
  induction l with
  | nil => intro m h; simp at h
  | cons a l ih =>
    intro m h
    cases l with
    | nil => simp_all
    | cons c l2 =>
      rw [List.getLast?_cons_cons] at h
      exact List.mem_cons_of_mem a (ih h)

theorem sorted_getLast_max {α : Type _} {key : α → Int} :
    ∀ {l : List α}, l.Pairwise (fun a b => key a ≤ key b) →
      ∀ {m : α}, l.getLast? = some m → ∀ b ∈ l, key b ≤ key m := by
  intro l
  induction l with
  | nil => intro _ m h; simp at h
  | cons a l ih =>
    intro hp m hm b hb
    rw [List.pairwise_cons] at hp
    cases l with
    | nil =>
      simp at hm
      rcases List.mem_singleton.mp hb with rfl
      rw [hm]
    | cons c l2 =>
      rw [List.getLast?_cons_cons] at hm
      rcases List.mem_cons.mp hb with rfl | hb
      · exact le_trans (hp.1 m (getLast?_mem hm)) le_rfl
      · exact ih hp.2 hm b hb

theorem getThemeValueGo_eq_specResolvePath (fallback : JVal) :
    ∀ (keys : List String) (current : JVal),
      getThemeValueGo fallback keys current =
        (specResolvePath keys current).getD fallback := by
  intro keys
  induction keys with
  | nil => intro current; rfl
  | cons key rest ih =>
    intro current
    cases current with
    | prim p =>
      cases p <;> simp [getThemeValueGo, specResolvePath, jsTruthy, jsTypeof, hasKey]
    | closure tag =>
      simp [getThemeValueGo, specResolvePath, jsTruthy, jsTypeof, hasKey]
    | obj fields =>
      cases h : fields.lookup key with
      | none =>
        simp [getThemeValueGo, specResolvePath, jsTruthy, jsTypeof, hasKey, h]
      | some v =>
        simp [getThemeValueGo, specResolvePath, jsTruthy, jsTypeof, hasKey, h,
          getField, ih]

/-!
## Responsive Value Selector lemmas
-/

theorem useResponsiveValue_eq_getLast {T : Type _} (breakpoints : String → Int)
    (values : List (String × Option T)) (screenWidth : Int) :
    useResponsiveValue breakpoints values screenWidth =
      (((availList breakpoints values).filter
          (fun bp => decide (breakpoints bp ≤ screenWidth))).getLast?).bind
        (fun bp => if bp.isEmpty then none else jsGetValue values bp) := by
  have hid : ∀ (x : Option String),
      (match x with | some b => some b | none => (none : Option String)) = x := by
    intro x; cases x <;> rfl
  unfold availList
  rw [useResponsiveValue, selectLoop_eq_takeWhile,
    takeWhile_eq_filter_of_sorted screenWidth (pairwise_sortByKey breakpoints _), hid]
  cases ((sortByKey breakpoints ((values.map Prod.fst).filter
      (fun bp => (jsGetValue values bp).isSome))).filter
        (fun a => decide (breakpoints a ≤ screenWidth))).getLast? with
  | none => rfl
  | some bp => rfl

theorem mem_availList_iff {T : Type _} (breakpoints : String → Int)
    (values : List (String × Option T)) (bp : String) :
    bp ∈ availList breakpoints values ↔ considered values bp := by
  rw [availList, mem_sortByKey, List.mem_filter, considered]

theorem considered_ne_empty {T : Type _} {values : List (String × Option T)}
    (hkeys : ∀ kv ∈ values, kv.1 ≠ "") {bp : String}
    (h : considered values bp) : bp ≠ "" := by
  obtain ⟨hmem, _⟩ := h
  obtain ⟨kv, hkv, rfl⟩ := List.mem_map.mp hmem
  exact hkeys kv hkv

theorem eq_dropLast_append_of_getLast? {α : Type _} :
    ∀ {l : List α} {m : α}, l.getLast? = some m → l = l.dropLast ++ [m] := by
  intro l
  induction l with
  | nil => intro m h; simp at h
  | cons a l ih =>
    intro m h
    cases l with
    | nil => simp_all
    | cons c l2 =>
      rw [List.getLast?_cons_cons] at h
      have := ih h
      calc a :: c :: l2 = a :: ((c :: l2).dropLast ++ [m]) := by rw [← this]
        _ = (a :: c :: l2).dropLast ++ [m] := by simp

/-- C1 (amended): the responsive value selector considers exactly the
keys of the value map carrying defined values.  Provided the keys are
nonempty names (the final truthiness test in the source returns
`undefined` for a selected empty-string name, see the counterexample),
the selector returns `undefined` exactly when no considered threshold
is at most the current width, and otherwise the value of a considered
breakpoint whose threshold is maximal among those at most the width.
The worked examples of the claim (widths 800, 200, 1500 against
`{xs:0, md:768, lg:992}` and `{xs:1, md:3, lg:4}`) are included. -/
theorem C1_selector_spec {T : Type _} (breakpoints : String → Int)
    (values : List (String × Option T)) (screenWidth : Int)
    (hkeys : ∀ kv ∈ values, kv.1 ≠ "") :
    ((useResponsiveValue breakpoints values screenWidth = none ↔
      ∀ bp, considered values bp → ¬ breakpoints bp ≤ screenWidth)
    ∧ (∀ t, useResponsiveValue breakpoints values screenWidth = some t →
        ∃ bp, considered values bp ∧ breakpoints bp ≤ screenWidth ∧
          jsGetValue values bp = some t ∧
          ∀ bp2, considered values bp2 → breakpoints bp2 ≤ screenWidth →
            breakpoints bp2 ≤ breakpoints bp))
    ∧ useResponsiveValue exampleBp exampleValues 800 = some 3
    ∧ useResponsiveValue exampleBp exampleValues 200 = some 1
    ∧ useResponsiveValue exampleBp exampleValues 1500 = some 4 := by
  have hpav : (availList breakpoints values).Pairwise
      (fun a b => breakpoints a ≤ breakpoints b) := by
    rw [availList]; exact pairwise_sortByKey _ _
  refine ⟨⟨?_, ?_⟩, by decide, by decide, by decide⟩
  · rw [useResponsiveValue_eq_getLast]
    cases hlast : ((availList breakpoints values).filter
        (fun bp => decide (breakpoints bp ≤ screenWidth))).getLast? with
    | none =>
      have hempty := List.getLast?_eq_none_iff.mp hlast
      constructor
      · intro _ bp hc hle
        have hmem : bp ∈ (availList breakpoints values).filter
            (fun bp => decide (breakpoints bp ≤ screenWidth)) :=
          List.mem_filter.mpr ⟨(mem_availList_iff _ _ _).mpr hc, by simpa using hle⟩
        rw [hempty] at hmem
        exact absurd hmem (List.not_mem_nil bp)
      · intro _; rfl
    | some bpl =>
      have hmemfl := getLast?_mem hlast
      have hcl : considered values bpl :=
        (mem_availList_iff _ _ _).mp (List.mem_of_mem_filter hmemfl)
      have hple : breakpoints bpl ≤ screenWidth := by
        have := (List.mem_filter.mp hmemfl).2
        simpa using this
      have hne : bpl.isEmpty = false := by
        have h0 := considered_ne_empty hkeys hcl
        cases hbe : bpl.isEmpty with
        | false => rfl
        | true => exact absurd ((String.isEmpty_iff bpl).mp hbe) h0
      rw [Option.some_bind, hne, if_neg (show ¬ (false = true) by simp)]
      constructor
      · intro hnone
        exfalso
        have hs := hcl.2
        rw [hnone] at hs
        simp at hs
      · intro hall
        exact absurd hple (hall bpl hcl)
  · intro t ht
    rw [useResponsiveValue_eq_getLast] at ht
    cases hlast : ((availList breakpoints values).filter
        (fun bp => decide (breakpoints bp ≤ screenWidth))).getLast? with
    | none => rw [hlast] at ht; simp at ht
    | some bpl =>
      rw [hlast] at ht
      have hmemfl := getLast?_mem hlast
      have hcl : considered values bpl :=
        (mem_availList_iff _ _ _).mp (List.mem_of_mem_filter hmemfl)
      have hple : breakpoints bpl ≤ screenWidth := by
        have := (List.mem_filter.mp hmemfl).2
        simpa using this
      have hne : bpl.isEmpty = false := by
        have h0 := considered_ne_empty hkeys hcl
        cases hbe : bpl.isEmpty with
        | false => rfl
        | true => exact absurd ((String.isEmpty_iff bpl).mp hbe) h0
      rw [Option.some_bind, hne, if_neg (show ¬ (false = true) by simp)] at ht
      refine ⟨bpl, hcl, hple, ht, ?_⟩
      intro bp2 hc2 hle2
      have hmem2 : bp2 ∈ (availList breakpoints values).filter
          (fun bp => decide (breakpoints bp ≤ screenWidth)) :=
        List.mem_filter.mpr ⟨(mem_availList_iff _ _ _).mpr hc2, by simpa using hle2⟩
      exact sorted_getLast_max
        (List.Pairwise.sublist (List.filter_sublist _) hpav) hlast bp2 hmem2

/-- Witness for C1 at the worked example. -/
theorem C1_selector_spec_witness :
    useResponsiveValue exampleBp exampleValues 800 = some 3 :=
  (C1_selector_spec exampleBp exampleValues 800 (by decide)).2.1

/-- C1 counterexample: a breakpoint named by the empty string, with
threshold 0 and defined value 1, qualifies at width 100, so the claim
demands the selector return `some 1`; the implementation returns
`undefined` because its final conditional tests the selected NAME for
truthiness and the empty string is falsy. -/
theorem C1_selector_counterexample :
    useResponsiveValue constBp0 [("", some (1 : Int))] 100 = none
    ∧ considered [("", some (1 : Int))] ""
    ∧ constBp0 "" ≤ 100
    ∧ jsGetValue [("", some (1 : Int))] "" = some 1 := by
  refine ⟨by decide, by decide, by decide, by decide⟩

/-- C7 (amended): among the considered breakpoint names tied at the
maximal qualifying threshold, the selector returns the value of the one
encountered LAST in ascending iteration order — every other name tied
at that threshold occurs earlier in the ascending list (last-write-wins
under equal key), provided key names are nonempty. -/
theorem C7_selector_tiebreak {T : Type _} (breakpoints : String → Int)
    (values : List (String × Option T)) (screenWidth : Int)
    (hkeys : ∀ kv ∈ values, kv.1 ≠ "")
    (bp1 bp2 : String) (h1 : considered values bp1) (h2 : considered values bp2)
    (hne12 : bp1 ≠ bp2) (heq : breakpoints bp1 = breakpoints bp2)
    (hle : breakpoints bp1 ≤ screenWidth)
    (hmax : ∀ bp, considered values bp → breakpoints bp ≤ screenWidth →
      breakpoints bp ≤ breakpoints bp1) :
    ∃ bpLast, considered values bpLast ∧ breakpoints bpLast = breakpoints bp1 ∧
      useResponsiveValue breakpoints values screenWidth = jsGetValue values bpLast ∧
      ∀ bp, considered values bp → breakpoints bp = breakpoints bp1 → bp ≠ bpLast →
        [bp, bpLast].Sublist (availList breakpoints values) := by
  have hpav : (availList breakpoints values).Pairwise
      (fun a b => breakpoints a ≤ breakpoints b) := by
    rw [availList]; exact pairwise_sortByKey _ _
  have hmem1 : bp1 ∈ (availList breakpoints values).filter
      (fun bp => decide (breakpoints bp ≤ screenWidth)) :=
    List.mem_filter.mpr ⟨(mem_availList_iff _ _ _).mpr h1, by simpa using hle⟩
  cases hlast : ((availList breakpoints values).filter
      (fun bp => decide (breakpoints bp ≤ screenWidth))).getLast? with
  | none =>
    exfalso
    rw [List.getLast?_eq_none_iff.mp hlast] at hmem1
    exact absurd hmem1 (List.not_mem_nil bp1)
  | some bpLast =>
    have hmemfl := getLast?_mem hlast
    have hcl : considered values bpLast :=
      (mem_availList_iff _ _ _).mp (List.mem_of_mem_filter hmemfl)
    have hple : breakpoints bpLast ≤ screenWidth := by
      have := (List.mem_filter.mp hmemfl).2
      simpa using this
    have hkeyeq : breakpoints bpLast = breakpoints bp1 :=
      le_antisymm (hmax bpLast hcl hple)
        (sorted_getLast_max (List.Pairwise.sublist (List.filter_sublist _) hpav)
          hlast bp1 hmem1)
    have hneE : bpLast.isEmpty = false := by
      have h0 := considered_ne_empty hkeys hcl
      cases hbe : bpLast.isEmpty with
      | false => rfl
      | true => exact absurd ((String.isEmpty_iff bpLast).mp hbe) h0
    refine ⟨bpLast, hcl, hkeyeq, ?_, ?_⟩
    · rw [useResponsiveValue_eq_getLast, hlast, Option.some_bind, hneE,
        if_neg (show ¬ (false = true) by simp)]
    · intro bp hc hkey hnebp
      have hmemb : bp ∈ (availList breakpoints values).filter
          (fun bp => decide (breakpoints bp ≤ screenWidth)) :=
        List.mem_filter.mpr ⟨(mem_availList_iff _ _ _).mpr hc, by
          have : breakpoints bp ≤ screenWidth := by rw [hkey]; exact hle
          simpa using this⟩
      have hdecomp := eq_dropLast_append_of_getLast? hlast
      have hbdrop : bp ∈ ((availList breakpoints values).filter
          (fun bp => decide (breakpoints bp ≤ screenWidth))).dropLast := by
        rw [hdecomp] at hmemb
        rcases List.mem_append.mp hmemb with h | h
        · exact h
        · exact absurd (List.mem_singleton.mp h) hnebp
      have hsub1 : [bp, bpLast].Sublist ((availList breakpoints values).filter
          (fun bp => decide (breakpoints bp ≤ screenWidth))) := by
        rw [hdecomp]
        have : ([bp] ++ [bpLast]).Sublist (((availList breakpoints values).filter
            (fun bp => decide (breakpoints bp ≤ screenWidth))).dropLast ++ [bpLast]) :=
          List.Sublist.append (List.singleton_sublist.mpr hbdrop) (List.Sublist.refl _)
        simpa using this
      exact List.Sublist.trans hsub1 (List.filter_sublist _)

/-- Witness for C7 at the tied example (width 5: a and b tie at the
maximal qualifying threshold 0). -/
theorem C7_selector_tiebreak_witness :
    ∃ bpLast, considered tieValues bpLast ∧ tieBp bpLast = tieBp "a" ∧
      useResponsiveValue tieBp tieValues 5 = jsGetValue tieValues bpLast ∧
      ∀ bp, considered tieValues bp → tieBp bp = tieBp "a" → bp ≠ bpLast →
        [bp, bpLast].Sublist (availList tieBp tieValues) :=
  C7_selector_tiebreak tieBp tieValues 5 (by decide) "a" "b" (by decide) (by decide)
    (by decide) (by decide) (by decide)
    (by
      intro bp hc hle
      have hmem : bp = "a" ∨ bp = "b" ∨ bp = "c" := by
        simpa [tieValues] using hc.1
      rcases hmem with rfl | rfl | rfl
      · decide
      · decide
      · exact absurd hle (by decide))

/-- C7 counterexample: a and b are considered, share threshold 0, and
both thresholds are at most the width 20, so the claim as stated
demands the value of b (the later of the two in ascending iteration
order); the selector instead returns the value of c, whose larger
threshold 10 also qualifies. -/
theorem C7_selector_counterexample :
    useResponsiveValue tieBp tieValues 20 = some 3
    ∧ considered tieValues "a" ∧ considered tieValues "b"
    ∧ tieBp "a" = tieBp "b" ∧ tieBp "a" ≤ 20 ∧ tieBp "b" ≤ 20
    ∧ jsGetValue tieValues "b" = some 2
    ∧ (2 : Int) ≠ 3 := by
  refine ⟨by decide, by decide, by decide, by decide, by decide, by decide,
    by decide, by decide⟩

/-!
## Breakpoint Normalizer: claim C4
-/

/-- C4: breakpoint normalization returns the same key/value pairs (a
permutation), re-inserted in ascending order of value, with a stable
tie-break (entries of any fixed value keep their relative input order);
the worked example of the claim is included.  Determinism on repeated
calls is definitional for a pure function. -/
theorem C4_normalizeBreakpoints (breakpoints : List (String × Int))
    (hzero : ∃ e ∈ breakpoints, e.2 = 0) :
    (processBreakpointsForUnistyles breakpoints).Perm breakpoints
    ∧ (processBreakpointsForUnistyles breakpoints).Pairwise (fun a b => a.2 ≤ b.2)
    ∧ (∀ v : Int, (processBreakpointsForUnistyles breakpoints).filter
        (fun e => decide (e.2 = v)) = breakpoints.filter (fun e => decide (e.2 = v)))
    ∧ processBreakpointsForUnistyles
        [("xl", 1200), ("xs", 0), ("lg", 992), ("sm", 576), ("md", 768)] =
      [("xs", 0), ("sm", 576), ("md", 768), ("lg", 992), ("xl", 1200)] := by
  refine ⟨perm_sortByKey _ _, pairwise_sortByKey _ _,
    fun v => filter_sortByKey _ _ v, by decide⟩

/-- Witness for C4 at the worked example of the claim. -/
theorem C4_normalizeBreakpoints_witness :
    processBreakpointsForUnistyles
        [("xl", 1200), ("xs", 0), ("lg", 992), ("sm", 576), ("md", 768)] =
      [("xs", 0), ("sm", 576), ("md", 768), ("lg", 992), ("xl", 1200)] :=
  (C4_normalizeBreakpoints
    [("xl", 1200), ("xs", 0), ("lg", 992), ("sm", 576), ("md", 768)]
    (by decide)).2.2.2

/-!
## Validator: claim C5
-/

theorem ownsTyped_eq (sec : JVal) (k ty : String) :
    ownsTyped sec k ty = (hasKey sec k && (jsTypeof (getField sec k) == ty)) := by
  cases sec with
  | obj fields =>
    rw [ownsTyped, hasKey, getField]
    cases h : fields.lookup k with
    | none => simp
    | some v => simp
  | prim p => rfl
  | closure tag => rfl

theorem truthy_and_validateColors (v : JVal) :
    (jsTruthy v && validateColors v) =
      requiredColors.all (fun k => ownsTyped v k "string") := by
  cases v with
  | obj fields =>
    simp [validateColors, jsTruthy, jsTypeof, ownsTyped_eq]
  | prim p =>
    cases p <;> simp [validateColors, jsTruthy, jsTypeof, requiredColors, ownsTyped]
  | closure tag =>
    simp [validateColors, jsTruthy, jsTypeof, requiredColors, ownsTyped]

theorem truthy_and_validateSpacing (v : JVal) :
    (jsTruthy v && validateSpacing v) =
      requiredSpacing.all (fun k => ownsTyped v k "number") := by
  cases v with
  | obj fields =>
    simp [validateSpacing, jsTruthy, jsTypeof, ownsTyped_eq]
  | prim p =>
    cases p <;> simp [validateSpacing, jsTruthy, jsTypeof, requiredSpacing, ownsTyped]
  | closure tag =>
    simp [validateSpacing, jsTruthy, jsTypeof, requiredSpacing, ownsTyped]

theorem truthy_and_validateTypography (v : JVal) :
    (jsTruthy v && validateTypography v) =
      requiredFontSizes.all (fun k => ownsTyped (getField v "fontSize") k "number") := by
  cases v with
  | obj fields =>
    rw [validateTypography]
    cases hfs : getField (JVal.obj fields) "fontSize" with
    | obj fs2 =>
      simp [jsTruthy, jsTypeof, hfs, ownsTyped_eq]
    | prim p =>
      cases p <;> simp [jsTruthy, jsTypeof, hfs, requiredFontSizes, ownsTyped]
    | closure tag =>
      simp [jsTruthy, jsTypeof, hfs, requiredFontSizes, ownsTyped]
  | prim p =>
    cases p <;> simp [validateTypography, jsTruthy, jsTypeof, getField, JVal.undefined,
      requiredFontSizes, ownsTyped]
  | closure tag =>
    simp [validateTypography, jsTruthy, jsTypeof, getField, JVal.undefined,
      requiredFontSizes, ownsTyped]

theorem lookup_append {β : Type _} (l1 l2 : List (String × β)) (k : String) :
    (l1 ++ l2).lookup k =
      match l1.lookup k with
      | some v => some v
      | none => l2.lookup k := by
  induction l1 with
  | nil => simp [List.lookup]
  | cons kv rest ih =>
    obtain ⟨k0, v0⟩ := kv
    cases hbe : (k == k0) <;> simp [List.lookup, hbe, ih]

theorem validateTheme_eq_specValidTheme (candidate : JVal) :
    validateTheme candidate = specValidTheme candidate := by
  have hbool : ∀ a b d x y z : Bool,
      (if (!a || !b || !d) = true then false else x && y && z) =
        ((a && x) && ((b && y) && (d && z))) := by decide
  cases candidate with
  | prim p =>
    cases p <;> simp [validateTheme, specValidTheme, jsTruthy, jsTypeof,
      getField, requiredColors, ownsTyped]
  | closure tag =>
    simp [validateTheme, specValidTheme, jsTruthy, jsTypeof, getField,
      requiredColors, ownsTyped]
  | obj fields =>
    rw [validateTheme, specValidTheme]
    rw [if_neg (show ¬ ((!jsTruthy (JVal.obj fields)
      || jsTypeof (JVal.obj fields) != "object") = true) by simp [jsTruthy, jsTypeof])]
    rw [hbool]
    rw [truthy_and_validateColors, truthy_and_validateSpacing,
      truthy_and_validateTypography]
    simp [jsTruthy, jsTypeof, Bool.and_assoc]

/-- C5: the validator is total (a Lean function) and never rejects for
unknown keys: it agrees everywhere with the spec predicate that only
inspects the required keys, returns false on null and undefined, and
adding a fresh top-level key to a valid theme keeps it valid. -/
theorem C5_validateTheme_spec :
    (∀ candidate : JVal, validateTheme candidate = specValidTheme candidate)
    ∧ validateTheme (.prim .null) = false
    ∧ validateTheme JVal.undefined = false
    ∧ (∀ (fields : List (String × JVal)) (k : String) (v : JVal),
        fields.lookup k = none → validateTheme (.obj fields) = true →
        validateTheme (.obj (fields ++ [(k, v)])) = true) := by
  have hmain := validateTheme_eq_specValidTheme
  refine ⟨hmain, rfl, rfl, ?_⟩
  intro fields k v hnone hvalid
  rw [hmain] at hvalid ⊢
  have hget : ∀ k0 : String, (fields.lookup k0).isSome →
      getField (JVal.obj (fields ++ [(k, v)])) k0 = getField (JVal.obj fields) k0 := by
    intro k0 hsome
    rw [getField, getField, lookup_append]
    cases h : fields.lookup k0 with
    | none => rw [h] at hsome; simp at hsome
    | some v0 => rfl
  have hsec : ∀ (k0 : String) (keys : List String) (ty : String),
      keys ≠ [] →
      keys.all (fun kk => ownsTyped (getField (JVal.obj fields) k0) kk ty) = true →
      keys.all (fun kk => ownsTyped (getField (JVal.obj (fields ++ [(k, v)])) k0) kk ty)
        = true := by
    intro k0 keys ty hne hall
    have hsome : (fields.lookup k0).isSome := by
      cases hl : fields.lookup k0 with
      | some v0 => rfl
      | none =>
        exfalso
        cases keys with
        | nil => exact hne rfl
        | cons kk rest =>
          rw [List.all_cons] at hall
          have h1 := (Bool.and_eq_true _ _).mp hall |>.1
          rw [getField, hl] at h1
          simp [ownsTyped, Option.getD, JVal.undefined] at h1
    rw [hget k0 hsome]
    exact hall
  rw [specValidTheme] at hvalid ⊢
  simp only [jsTruthy, jsTypeof, beq_self_eq_true, Bool.true_and] at hvalid ⊢
  have h1 := (Bool.and_eq_true _ _).mp hvalid
  have h2 := (Bool.and_eq_true _ _).mp h1.1
  rw [Bool.and_eq_true, Bool.and_eq_true]
  refine ⟨⟨hsec "colors" requiredColors "string" (by decide) h2.1,
    hsec "spacing" requiredSpacing "number" (by decide) h2.2⟩, ?_⟩
  have htySome : (fields.lookup "typography").isSome := by
    cases hl : fields.lookup "typography" with
    | some v0 => rfl
    | none =>
      exfalso
      have hall := h1.2
      rw [requiredFontSizes, List.all_cons] at hall
      have hx := (Bool.and_eq_true _ _).mp hall |>.1
      rw [getField, hl] at hx
      simp [getField, ownsTyped, Option.getD, JVal.undefined] at hx
  rw [hget "typography" htySome]
  exact h1.2

/-- Witness for C5: a fresh unknown top-level key keeps a valid theme
valid. -/
theorem C5_validateTheme_spec_witness :
    validateTheme (.obj (validThemeFields ++ [("customSection", JVal.num 5)])) = true :=
  C5_validateTheme_spec.2.2.2 validThemeFields "customSection" (JVal.num 5) rfl rfl

/-!
## Path Resolver: claim C6
-/

/-- C6: `getThemeValue` splits the path on dots and walks the theme one
segment at a time; it returns the supplied fallback exactly when some
step hits a node that is not a non-null object owning the next segment
(it is a total function, so it never throws), and otherwise the exact
value stored at that path, at arbitrary depth. -/
theorem C6_getThemeValue_spec :
    ∀ (theme : JVal) (path : String) (fallback : JVal),
      getThemeValue theme path fallback =
        match specResolvePath (splitDot path) theme with
        | some v => v
        | none => fallback := by
  intro theme path fallback
  rw [getThemeValue, getThemeValueGo_eq_specResolvePath]
  cases specResolvePath (splitDot path) theme <;> rfl

/-!
## Merger: claim C2
-/

theorem getField_eq_fieldsOf (v : JVal) (k : String) :
    getField v k = ((fieldsOf v).lookup k).getD JVal.undefined := by
  cases v <;> simp [getField, fieldsOf, List.lookup]

theorem hasKey_eq_fieldsOf (v : JVal) (k : String) :
    hasKey v k = ((fieldsOf v).lookup k).isSome := by
  cases v <;> simp [hasKey, fieldsOf, List.lookup]

theorem nodup_fieldsOf_of_spreadOk {v : JVal} (h : spreadOk v = true) :
    ((fieldsOf v).map Prod.fst).Nodup := by
  cases v with
  | obj fields => simpa [spreadOk, fieldsOf] using h
  | prim p => simp [fieldsOf]
  | closure t => simp [fieldsOf]

theorem getField_spread_pair (A B : JVal) (hB : spreadOk B = true) (k : String) :
    getField (.obj (spreadFields (fieldsOf A) (fieldsOf B))) k =
      if hasKey B k then getField B k else getField A k := by
  rw [show getField (.obj (spreadFields (fieldsOf A) (fieldsOf B))) k =
      ((spreadFields (fieldsOf A) (fieldsOf B)).lookup k).getD JVal.undefined from rfl]
  rw [lookup_spreadFields _ (nodup_fieldsOf_of_spreadOk hB) k]
  rw [hasKey_eq_fieldsOf, getField_eq_fieldsOf B, getField_eq_fieldsOf A]
  cases h : (fieldsOf B).lookup k <;> simp [h]

theorem hasKey_spread_pair (A B : JVal) (hB : spreadOk B = true) (k : String) :
    hasKey (.obj (spreadFields (fieldsOf A) (fieldsOf B))) k =
      (hasKey A k || hasKey B k) := by
  rw [show hasKey (.obj (spreadFields (fieldsOf A) (fieldsOf B))) k =
      ((spreadFields (fieldsOf A) (fieldsOf B)).lookup k).isSome from rfl]
  rw [lookup_spreadFields _ (nodup_fieldsOf_of_spreadOk hB) k]
  rw [hasKey_eq_fieldsOf, hasKey_eq_fieldsOf]
  cases h : (fieldsOf B).lookup k <;> cases h2 : (fieldsOf A).lookup k <;> simp [h, h2]

/-- C2 (amended): `mergeThemes` merges top-level keys by wholesale
replacement (override wins at keys it has, other keys keep the base
value, keys of either input are present), EXCEPT the sections colors,
spacing, typography, and within typography the four sub-sections,
which merge key-wise with the override winning per key; the merged
colors and spacing sections hold the union of the input key sets, and
the merged typography holds the union of the input typography key sets
PLUS the four sub-section keys, which are always present (created as
empty objects when absent from both inputs — the deviation from the
claim forced by the counterexample).  The worked example of the claim
is included. -/
theorem C2_mergeThemes_sections (baseTheme overrides : JVal)
    (hov : spreadOk overrides = true)
    (hovColors : spreadOk (getField overrides "colors") = true)
    (hovSpacing : spreadOk (getField overrides "spacing") = true)
    (hovTypo : spreadOk (getField overrides "typography") = true)
    (hovFS : spreadOk (getField (getField overrides "typography") "fontSize") = true)
    (hovFW : spreadOk (getField (getField overrides "typography") "fontWeight") = true)
    (hovLH : spreadOk (getField (getField overrides "typography") "lineHeight") = true)
    (hovFF : spreadOk (getField (getField overrides "typography") "fontFamily") = true) :
    (∀ k, k ≠ "colors" → k ≠ "spacing" → k ≠ "typography" →
      getField (mergeThemes baseTheme overrides) k =
        (if hasKey overrides k then getField overrides k else getField baseTheme k)
      ∧ hasKey (mergeThemes baseTheme overrides) k
          = (hasKey baseTheme k || hasKey overrides k))
    ∧ (∀ sec ∈ (["colors", "spacing", "typography"] : List String),
        hasKey (mergeThemes baseTheme overrides) sec = true)
    ∧ (∀ sec ∈ (["colors", "spacing"] : List String), ∀ k,
        getField (getField (mergeThemes baseTheme overrides) sec) k =
          (if hasKey (getField overrides sec) k then getField (getField overrides sec) k
           else getField (getField baseTheme sec) k)
        ∧ hasKey (getField (mergeThemes baseTheme overrides) sec) k
            = (hasKey (getField baseTheme sec) k || hasKey (getField overrides sec) k))
    ∧ (∀ k, k ∉ (["fontSize", "fontWeight", "lineHeight", "fontFamily"] : List String) →
        getField (getField (mergeThemes baseTheme overrides) "typography") k =
          (if hasKey (getField overrides "typography") k
           then getField (getField overrides "typography") k
           else getField (getField baseTheme "typography") k)
        ∧ hasKey (getField (mergeThemes baseTheme overrides) "typography") k
            = (hasKey (getField baseTheme "typography") k
               || hasKey (getField overrides "typography") k))
    ∧ (∀ sub ∈ (["fontSize", "fontWeight", "lineHeight", "fontFamily"] : List String),
        hasKey (getField (mergeThemes baseTheme overrides) "typography") sub = true
        ∧ ∀ k,
          getField (getField (getField (mergeThemes baseTheme overrides) "typography") sub) k
            = (if hasKey (getField (getField overrides "typography") sub) k
               then getField (getField (getField overrides "typography") sub) k
               else getField (getField (getField baseTheme "typography") sub) k)
          ∧ hasKey (getField (getField (mergeThemes baseTheme overrides) "typography") sub) k
              = (hasKey (getField (getField baseTheme "typography") sub) k
                 || hasKey (getField (getField overrides "typography") sub) k))
    ∧ (getField (getField (mergeThemes exValidTheme overridePrimary) "colors") "primary"
         = .str "#FF0000"
       ∧ getField (getField (mergeThemes exValidTheme overridePrimary) "colors") "secondary"
         = getField (getField exValidTheme "colors") "secondary"
       ∧ getField (mergeThemes exValidTheme overridePrimary) "spacing"
         = getField exValidTheme "spacing") := by
  have hgc : getField (mergeThemes baseTheme overrides) "colors" =
      .obj (spreadFields (fieldsOf (getField baseTheme "colors"))
        (fieldsOf (getField overrides "colors"))) := by
    show ((setFieldList _ "typography" _).lookup "colors").getD JVal.undefined = _
    rw [lookup_setFieldList_ne _ _ (by decide),
      lookup_setFieldList_ne _ _ (by decide), lookup_setFieldList_self]
    rfl
  have hgs : getField (mergeThemes baseTheme overrides) "spacing" =
      .obj (spreadFields (fieldsOf (getField baseTheme "spacing"))
        (fieldsOf (getField overrides "spacing"))) := by
    show ((setFieldList _ "typography" _).lookup "spacing").getD JVal.undefined = _
    rw [lookup_setFieldList_ne _ _ (by decide), lookup_setFieldList_self]
    rfl
  have hgt : getField (mergeThemes baseTheme overrides) "typography" =
      .obj (setFieldList (setFieldList (setFieldList (setFieldList
        (spreadFields (fieldsOf (getField baseTheme "typography"))
          (fieldsOf (getField overrides "typography")))
        "fontSize" (.obj (spreadFields
          (fieldsOf (getField (getField baseTheme "typography") "fontSize"))
          (fieldsOf (getField (getField overrides "typography") "fontSize")))))
        "fontWeight" (.obj (spreadFields
          (fieldsOf (getField (getField baseTheme "typography") "fontWeight"))
          (fieldsOf (getField (getField overrides "typography") "fontWeight")))))
        "lineHeight" (.obj (spreadFields
          (fieldsOf (getField (getField baseTheme "typography") "lineHeight"))
          (fieldsOf (getField (getField overrides "typography") "lineHeight")))))
        "fontFamily" (.obj (spreadFields
          (fieldsOf (getField (getField baseTheme "typography") "fontFamily"))
          (fieldsOf (getField (getField overrides "typography") "fontFamily"))))) := by
    show ((setFieldList _ "typography" _).lookup "typography").getD JVal.undefined = _
    rw [lookup_setFieldList_self]
    rfl
  refine ⟨?_, ?_, ?_, ?_, ?_, by refine ⟨rfl, rfl, rfl⟩⟩
  · intro k hkc hks hkt
    have hlk : getField (mergeThemes baseTheme overrides) k =
        getField (.obj (spreadFields (fieldsOf baseTheme) (fieldsOf overrides))) k := by
      show ((setFieldList _ "typography" _).lookup k).getD JVal.undefined = _
      rw [lookup_setFieldList_ne _ _ hkt, lookup_setFieldList_ne _ _ hks,
        lookup_setFieldList_ne _ _ hkc]
      rfl
    have hhk : hasKey (mergeThemes baseTheme overrides) k =
        hasKey (.obj (spreadFields (fieldsOf baseTheme) (fieldsOf overrides))) k := by
      show ((setFieldList _ "typography" _).lookup k).isSome = _
      rw [lookup_setFieldList_ne _ _ hkt, lookup_setFieldList_ne _ _ hks,
        lookup_setFieldList_ne _ _ hkc]
      rfl
    rw [hlk, hhk, getField_spread_pair _ _ hov, hasKey_spread_pair _ _ hov]
    exact ⟨rfl, rfl⟩
  · intro sec hsec
    have htop : hasKey (mergeThemes baseTheme overrides) sec =
        ((setFieldList (setFieldList (setFieldList
          (spreadFields (fieldsOf baseTheme) (fieldsOf overrides))
          "colors" (getField (mergeThemes baseTheme overrides) "colors"))
          "spacing" (getField (mergeThemes baseTheme overrides) "spacing"))
          "typography" (getField (mergeThemes baseTheme overrides) "typography")).lookup
            sec).isSome := by
      rw [hgc, hgs, hgt]; rfl
    fin_cases hsec
    · rw [htop, lookup_setFieldList_ne _ _ (by decide),
        lookup_setFieldList_ne _ _ (by decide), lookup_setFieldList_self]
      rfl
    · rw [htop, lookup_setFieldList_ne _ _ (by decide), lookup_setFieldList_self]
      rfl
    · rw [htop, lookup_setFieldList_self]
      rfl
  · intro sec hsec k
    fin_cases hsec
    · rw [hgc, getField_spread_pair _ _ hovColors, hasKey_spread_pair _ _ hovColors]
      exact ⟨rfl, rfl⟩
    · rw [hgs, getField_spread_pair _ _ hovSpacing, hasKey_spread_pair _ _ hovSpacing]
      exact ⟨rfl, rfl⟩
  · intro k hk
    simp only [List.mem_cons, List.not_mem_nil, or_false, not_or] at hk
    obtain ⟨hk1, hk2, hk3, hk4⟩ := hk
    have hlk : getField (getField (mergeThemes baseTheme overrides) "typography") k =
        getField (.obj (spreadFields (fieldsOf (getField baseTheme "typography"))
          (fieldsOf (getField overrides "typography")))) k := by
      rw [hgt]
      show ((setFieldList _ "fontFamily" _).lookup k).getD JVal.undefined = _
      rw [lookup_setFieldList_ne _ _ hk4, lookup_setFieldList_ne _ _ hk3,
        lookup_setFieldList_ne _ _ hk2, lookup_setFieldList_ne _ _ hk1]
      rfl
    have hhk : hasKey (getField (mergeThemes baseTheme overrides) "typography") k =
        hasKey (.obj (spreadFields (fieldsOf (getField baseTheme "typography"))
          (fieldsOf (getField overrides "typography")))) k := by
      rw [hgt]
      show ((setFieldList _ "fontFamily" _).lookup k).isSome = _
      rw [lookup_setFieldList_ne _ _ hk4, lookup_setFieldList_ne _ _ hk3,
        lookup_setFieldList_ne _ _ hk2, lookup_setFieldList_ne _ _ hk1]
      rfl
    rw [hlk, hhk, getField_spread_pair _ _ hovTypo, hasKey_spread_pair _ _ hovTypo]
    exact ⟨rfl, rfl⟩
  · intro sub hsub
    fin_cases hsub
    · constructor
      · rw [hgt]
        show ((setFieldList _ "fontFamily" _).lookup "fontSize").isSome = true
        rw [lookup_setFieldList_ne _ _ (by decide), lookup_setFieldList_ne _ _ (by decide),
          lookup_setFieldList_ne _ _ (by decide), lookup_setFieldList_self]
        rfl
      · intro k
        have hsubv : getField (getField (mergeThemes baseTheme overrides) "typography")
            "fontSize" = .obj (spreadFields
              (fieldsOf (getField (getField baseTheme "typography") "fontSize"))
              (fieldsOf (getField (getField overrides "typography") "fontSize"))) := by
          rw [hgt]
          show ((setFieldList _ "fontFamily" _).lookup "fontSize").getD JVal.undefined = _
          rw [lookup_setFieldList_ne _ _ (by decide),
            lookup_setFieldList_ne _ _ (by decide),
            lookup_setFieldList_ne _ _ (by decide), lookup_setFieldList_self]
          rfl
        rw [hsubv, getField_spread_pair _ _ hovFS, hasKey_spread_pair _ _ hovFS]
        exact ⟨rfl, rfl⟩
    · constructor
      · rw [hgt]
        show ((setFieldList _ "fontFamily" _).lookup "fontWeight").isSome = true
        rw [lookup_setFieldList_ne _ _ (by decide), lookup_setFieldList_ne _ _ (by decide),
          lookup_setFieldList_self]
        rfl
      · intro k
        have hsubv : getField (getField (mergeThemes baseTheme overrides) "typography")
            "fontWeight" = .obj (spreadFields
              (fieldsOf (getField (getField baseTheme "typography") "fontWeight"))
              (fieldsOf (getField (getField overrides "typography") "fontWeight"))) := by
          rw [hgt]
          show ((setFieldList _ "fontFamily" _).lookup "fontWeight").getD JVal.undefined = _
          rw [lookup_setFieldList_ne _ _ (by decide),
            lookup_setFieldList_ne _ _ (by decide), lookup_setFieldList_self]
          rfl
        rw [hsubv, getField_spread_pair _ _ hovFW, hasKey_spread_pair _ _ hovFW]
        exact ⟨rfl, rfl⟩
    · constructor
      · rw [hgt]
        show ((setFieldList _ "fontFamily" _).lookup "lineHeight").isSome = true
        rw [lookup_setFieldList_ne _ _ (by decide), lookup_setFieldList_self]
        rfl
      · intro k
        have hsubv : getField (getField (mergeThemes baseTheme overrides) "typography")
            "lineHeight" = .obj (spreadFields
              (fieldsOf (getField (getField baseTheme "typography") "lineHeight"))
              (fieldsOf (getField (getField overrides "typography") "lineHeight"))) := by
          rw [hgt]
          show ((setFieldList _ "fontFamily" _).lookup "lineHeight").getD JVal.undefined = _
          rw [lookup_setFieldList_ne _ _ (by decide), lookup_setFieldList_self]
          rfl
        rw [hsubv, getField_spread_pair _ _ hovLH, hasKey_spread_pair _ _ hovLH]
        exact ⟨rfl, rfl⟩
    · constructor
      · rw [hgt]
        show ((setFieldList _ "fontFamily" _).lookup "fontFamily").isSome = true
        rw [lookup_setFieldList_self]
        rfl
      · intro k
        have hsubv : getField (getField (mergeThemes baseTheme overrides) "typography")
            "fontFamily" = .obj (spreadFields
              (fieldsOf (getField (getField baseTheme "typography") "fontFamily"))
              (fieldsOf (getField (getField overrides "typography") "fontFamily"))) := by
          rw [hgt]
          show ((setFieldList _ "fontFamily" _).lookup "fontFamily").getD JVal.undefined = _
          rw [lookup_setFieldList_self]
          rfl
        rw [hsubv, getField_spread_pair _ _ hovFF, hasKey_spread_pair _ _ hovFF]
        exact ⟨rfl, rfl⟩

/-- Witness for C2, reading the worked example back out of the proved
theorem. -/
theorem C2_mergeThemes_sections_witness :
    getField (getField (mergeThemes exValidTheme overridePrimary) "colors") "primary"
      = .str "#FF0000" :=
  (C2_mergeThemes_sections exValidTheme overridePrimary rfl rfl rfl rfl rfl rfl rfl
    rfl).2.2.2.2.2.1

/-- C2 counterexample: merging an empty override into a valid base
theme whose typography has no fontWeight section produces a typography
section OWNING the key fontWeight (bound to an empty object), although
neither input typography owns it — so the merged typography does not
hold exactly the union of the two input key sets, as the claim states. -/
theorem C2_mergeThemes_counterexample :
    hasKey (getField (mergeThemes exValidTheme (JVal.obj [])) "typography") "fontWeight"
      = true
    ∧ hasKey (getField exValidTheme "typography") "fontWeight" = false
    ∧ hasKey (getField (JVal.obj []) "typography") "fontWeight" = false := by
  exact ⟨rfl, rfl, rfl⟩

/-!
## Adapter construction lemmas
-/

theorem lookup_jsonCloneFields {fields : List (String × JVal)} {k : String} {v : JVal}
    (h : fields.lookup k = some v) (hkeep : jsonKeep v = true) :
    (jsonCloneFields fields).lookup k = some (jsonClone v) := by
  induction fields with
  | nil => simp [List.lookup] at h
  | cons kv rest ih =>
    obtain ⟨k0, v0⟩ := kv
    cases hbe : (k == k0) with
    | true =>
      have hv0 : v0 = v := by
        rw [List.lookup, hbe] at h
        exact Option.some.inj h
      subst hv0
      rw [jsonCloneFields, if_pos hkeep, List.lookup, hbe]
    | false =>
      have hrest : rest.lookup k = some v := by
        rw [List.lookup, hbe] at h
        exact h
      rw [jsonCloneFields]
      by_cases hk0 : jsonKeep v0 = true
      · rw [if_pos hk0, List.lookup, hbe]
        exact ih hrest
      · rw [if_neg hk0]
        exact ih hrest

theorem ownsTyped_section_obj {sec : JVal} {k ty : String}
    (h : ownsTyped sec k ty = true) :
    ∃ fs v, sec = .obj fs ∧ fs.lookup k = some v ∧ jsTypeof v = ty := by
  cases sec with
  | obj fs =>
    simp only [ownsTyped] at h
    cases hl : fs.lookup k with
    | none => rw [hl] at h; simp at h
    | some v =>
      rw [hl] at h
      exact ⟨fs, v, rfl, hl, by simpa using h⟩
  | prim p => simp [ownsTyped] at h
  | closure tag => simp [ownsTyped] at h

theorem validTheme_structure {t : JVal} (h : validateTheme t = true) :
    ∃ fs, t = .obj fs
      ∧ (∃ cf s, fs.lookup "colors" = some (.obj cf)
          ∧ cf.lookup "primary" = some (.str s))
      ∧ (∃ sf, fs.lookup "spacing" = some (.obj sf))
      ∧ (∃ tf, fs.lookup "typography" = some (.obj tf)) := by
  rw [validateTheme_eq_specValidTheme, specValidTheme] at h
  have h1 := (Bool.and_eq_true _ _).mp h
  have h2 := (Bool.and_eq_true _ _).mp h1.1
  have h3 := (Bool.and_eq_true _ _).mp h2.1
  have h4 := (Bool.and_eq_true _ _).mp h3.1
  obtain ⟨fs, rfl⟩ : ∃ fs, t = JVal.obj fs := by
    cases t with
    | obj fs => exact ⟨fs, rfl⟩
    | prim p =>
      exfalso
      cases p with
      | str s => have h5 := h4.2; simp [jsTypeof] at h5
      | num n => have h5 := h4.2; simp [jsTypeof] at h5
      | boolean b => have h5 := h4.2; simp [jsTypeof] at h5
      | null => have h5 := h4.1; simp [jsTruthy] at h5
      | undefined => have h5 := h4.1; simp [jsTruthy] at h5
    | closure tag =>
      exfalso
      have h5 := h4.2
      simp [jsTypeof] at h5
  have hallC := (List.all_eq_true.mp h3.2) "primary" (by decide)
  have hallS := (List.all_eq_true.mp h2.2) "xs" (by decide)
  have hallFS := (List.all_eq_true.mp h1.2) "sm" (by decide)
  refine ⟨fs, rfl, ?_, ?_, ?_⟩
  · obtain ⟨cf, v, hsec, hlk, hty⟩ := ownsTyped_section_obj hallC
    have hcol : fs.lookup "colors" = some (.obj cf) := by
      rw [getField] at hsec
      cases hl : fs.lookup "colors" with
      | none => rw [hl] at hsec; simp [JVal.undefined] at hsec
      | some w => rw [hl] at hsec; simp_all
    obtain ⟨s, rfl⟩ : ∃ s, v = JVal.str s := by
      cases v with
      | prim p =>
        cases p with
        | str s => exact ⟨s, rfl⟩
        | num n => simp [jsTypeof] at hty
        | boolean b => simp [jsTypeof] at hty
        | null => simp [jsTypeof] at hty
        | undefined => simp [jsTypeof] at hty
      | obj f2 => simp [jsTypeof] at hty
      | closure tag => simp [jsTypeof] at hty
    exact ⟨cf, s, hcol, hlk⟩
  · obtain ⟨sf, v, hsec, _, _⟩ := ownsTyped_section_obj hallS
    refine ⟨sf, ?_⟩
    rw [getField] at hsec
    cases hl : fs.lookup "spacing" with
    | none => rw [hl] at hsec; simp [JVal.undefined] at hsec
    | some w => rw [hl] at hsec; simp_all
  · obtain ⟨fsf, v, hsec, _, _⟩ := ownsTyped_section_obj hallFS
    have hobj : ∃ tf, getField (JVal.obj fs) "typography" = .obj tf := by
      cases hty2 : getField (JVal.obj fs) "typography" with
      | obj tf => exact ⟨tf, rfl⟩
      | prim p => rw [hty2] at hsec; simp [getField, JVal.undefined] at hsec
      | closure tag => rw [hty2] at hsec; simp [getField, JVal.undefined] at hsec
    obtain ⟨tf, htf⟩ := hobj
    refine ⟨tf, ?_⟩
    rw [getField] at htf
    cases hl : fs.lookup "typography" with
    | none => rw [hl] at htf; simp [JVal.undefined] at htf
    | some w => rw [hl] at htf; simp_all

theorem processTheme_ok_of_valid {t : JVal} (h : validateTheme t = true) :
    processThemeForUnistyles t =
      .ok (if jsTruthy (getField (jsonClone t) "utils") = false
           then setField (jsonClone t) "utils" utilsClosures
           else jsonClone t) := by
  obtain ⟨fs, rfl, ⟨cf, s, hcol, hprim⟩, ⟨sf, hspc⟩, ⟨tf, hty⟩⟩ := validTheme_structure h
  have hc : getField (jsonClone (JVal.obj fs)) "colors" = .obj (jsonCloneFields cf) := by
    show ((jsonCloneFields fs).lookup "colors").getD JVal.undefined = _
    rw [lookup_jsonCloneFields hcol rfl]
    rfl
  have hs : getField (jsonClone (JVal.obj fs)) "spacing" = .obj (jsonCloneFields sf) := by
    show ((jsonCloneFields fs).lookup "spacing").getD JVal.undefined = _
    rw [lookup_jsonCloneFields hspc rfl]
    rfl
  have ht : getField (jsonClone (JVal.obj fs)) "typography"
      = .obj (jsonCloneFields tf) := by
    show ((jsonCloneFields fs).lookup "typography").getD JVal.undefined = _
    rw [lookup_jsonCloneFields hty rfl]
    rfl
  rw [processThemeForUnistyles, hc, hs, ht]
  rw [if_neg (show ¬ ((!jsTruthy (JVal.obj (jsonCloneFields cf))) = true) by simp [jsTruthy])]
  rw [if_neg (show ¬ ((!jsTruthy (JVal.obj (jsonCloneFields sf))) = true) by simp [jsTruthy])]
  rw [if_neg (show ¬ ((!jsTruthy (JVal.obj (jsonCloneFields tf))) = true) by simp [jsTruthy])]
  cases htu : jsTruthy (getField (jsonClone (JVal.obj fs)) "utils") <;> simp [htu]

theorem getThemeValueGo_two_step {pfs ccf : List (String × JVal)} {k1 k2 : String}
    {v : JVal} (h1 : pfs.lookup k1 = some (.obj ccf)) (h2 : ccf.lookup k2 = some v)
    (fallback : JVal) :
    getThemeValueGo fallback [k1, k2] (.obj pfs) = v := by
  simp [getThemeValueGo, jsTruthy, jsTypeof, hasKey, getField, h1, h2]

theorem processed_colors_primary {t : JVal} (h : validateTheme t = true) {pt : JVal}
    (hpt : processThemeForUnistyles t = .ok pt) :
    getThemeValue pt "colors.primary" JVal.undefined = getField (getField t "colors") "primary"
    ∧ ∃ s, getField (getField t "colors") "primary" = .str s := by
  obtain ⟨fs, rfl, ⟨cf, s, hcol, hprim⟩, _, _⟩ := validTheme_structure h
  rw [processTheme_ok_of_valid h] at hpt
  have hpt' := Except.ok.inj hpt
  have hcc : (jsonCloneFields fs).lookup "colors" = some (.obj (jsonCloneFields cf)) :=
    lookup_jsonCloneFields hcol rfl
  have hcp : (jsonCloneFields cf).lookup "primary" = some (.str s) := by
    have := lookup_jsonCloneFields hprim rfl
    simpa [jsonClone] using this
  have hrhs : getField (getField (JVal.obj fs) "colors") "primary" = .str s := by
    rw [getField, hcol]
    show getField (JVal.obj cf) "primary" = _
    rw [getField, hprim]
    rfl
  have hsplit : splitDot "colors.primary" = ["colors", "primary"] := by decide
  refine ⟨?_, s, hrhs⟩
  rw [getThemeValue, hsplit, ← hpt', hrhs]
  by_cases htu : jsTruthy (getField (jsonClone (JVal.obj fs)) "utils") = false
  · rw [if_pos htu]
    show getThemeValueGo JVal.undefined ["colors", "primary"]
      (.obj (setFieldList (jsonCloneFields fs) "utils" utilsClosures)) = _
    exact getThemeValueGo_two_step
      (by rw [lookup_setFieldList_ne _ _ (by decide)]; exact hcc) hcp JVal.undefined
  · rw [if_neg htu]
    exact getThemeValueGo_two_step hcc hcp JVal.undefined

theorem processAllThemes_ok_of_valid {themes : List (String × JVal)}
    (h : ∀ nt ∈ themes, validateTheme nt.2 = true) :
    ∃ pts, processAllThemes themes = .ok pts := by
  induction themes with
  | nil => exact ⟨[], rfl⟩
  | cons nt rest ih =>
    obtain ⟨n0, t0⟩ := nt
    obtain ⟨prest, hprest⟩ := ih (fun x hx => h x (List.mem_cons_of_mem _ hx))
    refine ⟨(n0, (if jsTruthy (getField (jsonClone t0) "utils") = false
      then setField (jsonClone t0) "utils" utilsClosures else jsonClone t0)) :: prest, ?_⟩
    rw [processAllThemes, processTheme_ok_of_valid (h (n0, t0) (List.mem_cons_self _ _)),
      hprest]

theorem processAllThemes_lookup {themes pts : List (String × JVal)}
    (hok : processAllThemes themes = .ok pts)
    (hnodup : (themes.map Prod.fst).Nodup) :
    ∀ {name : String} {t : JVal}, (name, t) ∈ themes →
      ∃ pt, processThemeForUnistyles t = .ok pt ∧ pts.lookup name = some pt := by
  induction themes generalizing pts with
  | nil => intro name t hmem; simp at hmem
  | cons nt rest ih =>
    intro name t hmem
    obtain ⟨n0, t0⟩ := nt
    rw [processAllThemes] at hok
    revert hok
    cases hp0 : processThemeForUnistyles t0 with
    | error e => intro hok; simp at hok
    | ok pt0 =>
      cases hpr : processAllThemes rest with
      | error e => intro hok; simp at hok
      | ok prest =>
        intro hok
        simp only [Except.ok.injEq] at hok
        subst hok
        rw [List.map_cons, List.nodup_cons] at hnodup
        rcases List.mem_cons.mp hmem with heq | hmem2
        · obtain ⟨h1, h2⟩ := Prod.mk.inj heq
          subst h1; subst h2
          refine ⟨pt0, hp0, ?_⟩
          simp [List.lookup]
        · have hne : name ≠ n0 := by
            intro hcontra
            subst hcontra
            exact hnodup.1 (List.mem_map.mpr ⟨(name, t), hmem2, rfl⟩)
          obtain ⟨pt, hpt, hlk⟩ := ih hpr hnodup.2 hmem2
          refine ⟨pt, hpt, ?_⟩
          rw [List.lookup]
          have : (name == n0) = false := by simp [beq_eq_false_iff_ne, hne]
          rw [this]
          exact hlk

/-!
## Adapter construction: claims C3 and C10
-/

/-- C3: construction fails synchronously (the `Except` result carries
no partial bundle) with distinguishable errors checked in order:
MissingThemes when themes is absent or empty; otherwise
MissingBreakpoints when breakpoints is absent; otherwise
MissingZeroBreakpoint when no value equals 0; otherwise
InvalidThemeStructure naming the first offending theme; otherwise
construction succeeds with a bundle.  The two worked examples of the
claim are included. -/
theorem C3_createAdapter_errors (config : AdapterConfig) :
    ((config.themes = none ∨ config.themes = some []) →
      createPortableContentAdapter config = .error .missingThemes)
    ∧ (∀ ts, config.themes = some ts → ts ≠ [] → config.breakpoints = none →
        createPortableContentAdapter config = .error .missingBreakpoints)
    ∧ (∀ ts bps, config.themes = some ts → ts ≠ [] → config.breakpoints = some bps →
        (∀ e ∈ bps, e.2 ≠ 0) →
        createPortableContentAdapter config = .error .missingZeroBreakpoint)
    ∧ (∀ ts bps nt, config.themes = some ts → ts ≠ [] → config.breakpoints = some bps →
        (∃ e ∈ bps, e.2 = 0) →
        ts.find? (fun nt => !validateTheme nt.2) = some nt →
        createPortableContentAdapter config = .error (.invalidThemeStructure nt.1))
    ∧ (∀ ts bps, config.themes = some ts → ts ≠ [] → config.breakpoints = some bps →
        (∃ e ∈ bps, e.2 = 0) → (∀ nt ∈ ts, validateTheme nt.2 = true) →
        ∃ pts, createPortableContentAdapter config =
          .ok { themes := pts, breakpoints := processBreakpointsForUnistyles bps })
    ∧ createPortableContentAdapter ⟨some [], some [("xs", 0)]⟩ = .error .missingThemes
    ∧ createPortableContentAdapter ⟨some [("light", exValidTheme)], some [("sm", 576)]⟩
        = .error .missingZeroBreakpoint := by
  obtain ⟨cthemes, cbps⟩ := config
  refine ⟨?_, ?_, ?_, ?_, ?_, rfl, rfl⟩
  · rintro (h | h)
    · have h2 : cthemes = none := h
      subst h2
      rfl
    · have h2 : cthemes = some [] := h
      subst h2
      rfl
  · intro ts hts hne hbp
    have h2 : cthemes = some ts := hts
    have h3 : cbps = none := hbp
    subst h2; subst h3
    obtain ⟨nt0, rest, rfl⟩ : ∃ nt0 rest, ts = nt0 :: rest := by
      cases ts with
      | nil => exact absurd rfl hne
      | cons nt0 rest => exact ⟨nt0, rest, rfl⟩
    rfl
  · intro ts bps hts hne hbp hz
    have h2 : cthemes = some ts := hts
    have h3 : cbps = some bps := hbp
    subst h2; subst h3
    obtain ⟨nt0, rest, rfl⟩ : ∃ nt0 rest, ts = nt0 :: rest := by
      cases ts with
      | nil => exact absurd rfl hne
      | cons nt0 rest => exact ⟨nt0, rest, rfl⟩
    have hcont : ((bps.map Prod.snd).contains 0) = false := by
      cases hc : (bps.map Prod.snd).contains 0
      · rfl
      · exfalso
        have hmem : (0 : Int) ∈ bps.map Prod.snd := by simpa using hc
        obtain ⟨e, hmem2, he⟩ := List.mem_map.mp hmem
        exact hz e hmem2 he
    have hlen : ¬ ((nt0 :: rest).length = 0) := by simp
    simp only [createPortableContentAdapter]
    rw [if_neg hlen, hcont]
    rfl
  · intro ts bps nt hts hne hbp hz hf
    have h2 : cthemes = some ts := hts
    have h3 : cbps = some bps := hbp
    subst h2; subst h3
    obtain ⟨nt0, rest, rfl⟩ : ∃ nt0 rest, ts = nt0 :: rest := by
      cases ts with
      | nil => exact absurd rfl hne
      | cons nt0 rest => exact ⟨nt0, rest, rfl⟩
    have hcont : ((bps.map Prod.snd).contains 0) = true := by
      obtain ⟨e, hmem, he⟩ := hz
      have hmem2 : (0 : Int) ∈ bps.map Prod.snd := List.mem_map.mpr ⟨e, hmem, he⟩
      simpa using hmem2
    have hlen : ¬ ((nt0 :: rest).length = 0) := by simp
    simp only [createPortableContentAdapter]
    rw [if_neg hlen, hcont, hf]
    rfl
  · intro ts bps hts hne hbp hz hv
    have h2 : cthemes = some ts := hts
    have h3 : cbps = some bps := hbp
    subst h2; subst h3
    obtain ⟨nt0, rest, rfl⟩ : ∃ nt0 rest, ts = nt0 :: rest := by
      cases ts with
      | nil => exact absurd rfl hne
      | cons nt0 rest => exact ⟨nt0, rest, rfl⟩
    have hcont : ((bps.map Prod.snd).contains 0) = true := by
      obtain ⟨e, hmem, he⟩ := hz
      have hmem2 : (0 : Int) ∈ bps.map Prod.snd := List.mem_map.mpr ⟨e, hmem, he⟩
      simpa using hmem2
    have hfind : (nt0 :: rest).find? (fun nt => !validateTheme nt.2) = none := by
      rw [List.find?_eq_none]
      intro x hx
      rw [hv x hx]
      simp
    obtain ⟨pts, hpts⟩ := processAllThemes_ok_of_valid hv
    refine ⟨pts, ?_⟩
    have hlen : ¬ ((nt0 :: rest).length = 0) := by simp
    simp only [createPortableContentAdapter]
    rw [if_neg hlen, hcont, hfind, hpts]
    rfl

/-- Witness for C3: a valid one-theme construction succeeds. -/
theorem C3_createAdapter_errors_witness :
    ∃ pts, createPortableContentAdapter
        ⟨some [("light", exValidTheme)], some [("xs", 0), ("sm", 576)]⟩ =
      .ok { themes := pts,
            breakpoints := processBreakpointsForUnistyles [("xs", 0), ("sm", 576)] } :=
  (C3_createAdapter_errors
      ⟨some [("light", exValidTheme)], some [("xs", 0), ("sm", 576)]⟩).2.2.2.2.1
    [("light", exValidTheme)] [("xs", 0), ("sm", 576)] rfl (by simp) rfl
    ⟨("xs", 0), by simp, rfl⟩
    (by
      intro nt hmem
      have : nt = ("light", exValidTheme) := by simpa using hmem
      subst this
      decide)

theorem createAdapter_ok_inv {config : AdapterConfig} {bundle : AdapterBundle}
    (hok : createPortableContentAdapter config = .ok bundle) :
    ∃ ts bps pts, config.themes = some ts ∧ config.breakpoints = some bps
      ∧ (∀ nt ∈ ts, validateTheme nt.2 = true)
      ∧ processAllThemes ts = .ok pts
      ∧ bundle.themes = pts
      ∧ bundle.breakpoints = processBreakpointsForUnistyles bps := by
  rw [createPortableContentAdapter] at hok
  split at hok
  · simp at hok
  · rename_i ts hts
    split at hok
    · simp at hok
    · split at hok
      · simp at hok
      · rename_i bps hbps
        split at hok
        · simp at hok
        · split at hok
          · simp at hok
          · rename_i hfind
            split at hok
            · simp at hok
            · rename_i pts hpts
              have hvalid : ∀ nt ∈ ts, validateTheme nt.2 = true := by
                intro x hx
                have h := List.find?_eq_none.mp hfind x hx
                cases hvx : validateTheme x.2
                · exact absurd (by rw [hvx]; rfl) h
                · rfl
              have hb := Except.ok.inj hok
              exact ⟨ts, bps, pts, hts, hbps, hvalid, hpts,
                by rw [← hb], by rw [← hb]⟩

/-- C10: the bundle-bound getThemeValue util always resolves against
the FIRST processed theme of the bundle, however many themes the
config holds. -/
theorem C10_bundle_getThemeValue_first_theme (config : AdapterConfig)
    (bundle : AdapterBundle) (path : String) (fallback : JVal)
    (n1 : String) (t1 : JVal) (rest : List (String × JVal))
    (hthemes : config.themes = some ((n1, t1) :: rest))
    (htwo : rest ≠ [])
    (hok : createPortableContentAdapter config = .ok bundle) :
    ∃ pt1, processThemeForUnistyles t1 = .ok pt1 ∧
      bundle.themes.head? = some (n1, pt1) ∧
      adapterUtilsGetThemeValue bundle.themes path fallback =
        getThemeValue pt1 path fallback := by
  obtain ⟨ts, bps, pts, hts, hbps, hvalid, hpts, hbt, hbb⟩ := createAdapter_ok_inv hok
  rw [hthemes] at hts
  have hts2 := Option.some.inj hts
  subst hts2
  rw [processAllThemes] at hpts
  split at hpts
  · simp at hpts
  · rename_i pt1 hp1
    split at hpts
    · simp at hpts
    · rename_i prest hprest
      have hpts2 := Except.ok.inj hpts
      refine ⟨pt1, hp1, ?_, ?_⟩
      · rw [hbt, ← hpts2]
        rfl
      · rw [hbt, ← hpts2]
        rfl

/-- Witness for C10: with two themes differing at colors.primary, the
bound util returns the first value. -/
theorem C10_bundle_getThemeValue_first_theme_witness :
    adapterUtilsGetThemeValue exBundle2.themes "colors.primary" JVal.undefined
      = .str "#007AFF" := by
  obtain ⟨pt1, hpt1, hhead, heq⟩ :=
    C10_bundle_getThemeValue_first_theme exConfig2 exBundle2 "colors.primary"
      JVal.undefined "light" exValidTheme [("dark", exValidTheme2)] rfl
      (List.cons_ne_nil _ _) rfl
  have hV : processThemeForUnistyles exValidTheme = .ok exProcessedTheme := rfl
  rw [hV] at hpt1
  have hpt1' := Except.ok.inj hpt1
  rw [heq, ← hpt1']
  rfl

/-!
## Store-passing lemmas: claims C9 and C8 (aliasing part)
-/

theorem getElem?_append_of_some {α : Type _} {l : List α} {a : Nat} {x : α}
    (h : l[a]? = some x) (l2 : List α) : (l ++ l2)[a]? = some x := by
  have ha : a < l.length := by
    by_contra hcontra
    rw [List.getElem?_eq_none (by omega)] at h
    exact Option.noConfusion h
  rw [List.getElem?_append_left ha]
  exact h

/-- C9: the store-level `mergeThemes` only allocates: every object
record present before the call (the base, the overrides, and every
nested section of either) is present unchanged afterwards, and the
returned reference is a fresh address, not one of the inputs. -/
theorem C9_mergeThemes_no_mutation (σ : Store) (baseRef overridesRef : Nat) :
    (∀ (a : Nat) (ob : HObj), σ[a]? = some ob →
      ((mergeThemesH σ baseRef overridesRef).1)[a]? = some ob)
    ∧ σ[(mergeThemesH σ baseRef overridesRef).2]? = none := by
  constructor
  · intro a ob h
    simp only [mergeThemesH, allocStore]
    exact getElem?_append_of_some (getElem?_append_of_some (getElem?_append_of_some
      (getElem?_append_of_some (getElem?_append_of_some (getElem?_append_of_some
        (getElem?_append_of_some (getElem?_append_of_some h _) _) _) _) _) _) _) _
  · simp only [mergeThemesH, allocStore]
    apply List.getElem?_eq_none
    simp only [List.length_append, List.length_cons, List.length_nil]
    omega

/-- Witness for C9 at a one-object store holding the base theme. -/
theorem C9_mergeThemes_no_mutation_witness :
    ((mergeThemesH [[("x", HVal.prim (.num 1))]] 0 0).1)[0]?
      = some [("x", HVal.prim (.num 1))] :=
  (C9_mergeThemes_no_mutation [[("x", HVal.prim (.num 1))]] 0 0).1 0
    [("x", HVal.prim (.num 1))] rfl

theorem refGE_mono {n m : Nat} (h : n ≤ m) : ∀ {hv : HVal}, refGE m hv → refGE n hv
  | .prim _, _ => trivial
  | .ref a, hr => le_trans h hr

theorem fieldsRefGE_mono {n m : Nat} (h : n ≤ m) {fields : HObj}
    (hf : fieldsRefGE m fields) : fieldsRefGE n fields :=
  fun kv hkv => refGE_mono h (hf kv hkv)

mutual

theorem writeTree_extends : ∀ (σ : Store) (t : JVal), ∃ Δ, (writeTree σ t).1 = σ ++ Δ
  | σ, .prim p => ⟨[], by simp [writeTree]⟩
  | σ, .closure tag => ⟨[], by simp [writeTree]⟩
  | σ, .obj fields => by
    obtain ⟨Δ, hΔ⟩ := writeFields_extends σ fields
    exact ⟨Δ ++ [(writeFields σ fields).2], by simp [writeTree, hΔ]⟩

theorem writeFields_extends : ∀ (σ : Store) (fields : List (String × JVal)),
    ∃ Δ, (writeFields σ fields).1 = σ ++ Δ
  | σ, [] => ⟨[], by simp [writeFields]⟩
  | σ, (k, v) :: rest => by
    obtain ⟨Δ1, h1⟩ := writeTree_extends σ v
    obtain ⟨Δ2, h2⟩ := writeFields_extends (writeTree σ v).1 rest
    exact ⟨Δ1 ++ Δ2, by
      rw [show (writeFields σ ((k, v) :: rest)).1
        = (writeFields (writeTree σ v).1 rest).1 from rfl, h2, h1, List.append_assoc]⟩

end

theorem writeTree_length_le (σ : Store) (t : JVal) :
    σ.length ≤ (writeTree σ t).1.length := by
  obtain ⟨Δ, hΔ⟩ := writeTree_extends σ t
  rw [hΔ]
  simp

theorem writeFields_length_le (σ : Store) (fields : List (String × JVal)) :
    σ.length ≤ (writeFields σ fields).1.length := by
  obtain ⟨Δ, hΔ⟩ := writeFields_extends σ fields
  rw [hΔ]
  simp

mutual

theorem writeTree_fresh : ∀ (σ : Store) (t : JVal),
    refGE σ.length (writeTree σ t).2
    ∧ ∀ a, σ.length ≤ a → ∀ ob, ((writeTree σ t).1)[a]? = some ob →
        fieldsRefGE σ.length ob
  | σ, .prim p => by
    refine ⟨trivial, ?_⟩
    intro a ha ob hob
    rw [show (writeTree σ (.prim p)).1 = σ from rfl] at hob
    rw [List.getElem?_eq_none ha] at hob
    exact Option.noConfusion hob
  | σ, .closure tag => by
    refine ⟨trivial, ?_⟩
    intro a ha ob hob
    rw [show (writeTree σ (.closure tag)).1 = σ from rfl] at hob
    rw [List.getElem?_eq_none ha] at hob
    exact Option.noConfusion hob
  | σ, .obj fields => by
    have hf := writeFields_fresh σ fields
    have hlen := writeFields_length_le σ fields
    constructor
    · exact hlen
    · intro a ha ob hob
      rw [show (writeTree σ (.obj fields)).1
        = (writeFields σ fields).1 ++ [(writeFields σ fields).2] from rfl] at hob
      by_cases hlt : a < (writeFields σ fields).1.length
      · rw [List.getElem?_append_left hlt] at hob
        exact hf.2 a ha ob hob
      · rw [List.getElem?_append_right (by omega)] at hob
        have hz : a - (writeFields σ fields).1.length = 0 := by
          by_contra hne
          rw [List.getElem?_eq_none (by simp; omega)] at hob
          exact Option.noConfusion hob
        rw [hz] at hob
        have hob2 : (writeFields σ fields).2 = ob := by
          simpa using hob
        rw [← hob2]
        exact hf.1

theorem writeFields_fresh : ∀ (σ : Store) (fields : List (String × JVal)),
    fieldsRefGE σ.length (writeFields σ fields).2
    ∧ ∀ a, σ.length ≤ a → ∀ ob, ((writeFields σ fields).1)[a]? = some ob →
        fieldsRefGE σ.length ob
  | σ, [] => by
    constructor
    · intro kv hkv
      exact absurd hkv (List.not_mem_nil kv)
    · intro a ha ob hob
      rw [show (writeFields σ []).1 = σ from rfl] at hob
      rw [List.getElem?_eq_none ha] at hob
      exact Option.noConfusion hob
  | σ, (k, v) :: rest => by
    have hv := writeTree_fresh σ v
    have hrest := writeFields_fresh (writeTree σ v).1 rest
    have hlen := writeTree_length_le σ v
    constructor
    · intro kv hkv
      rw [show (writeFields σ ((k, v) :: rest)).2
        = (k, (writeTree σ v).2) :: (writeFields (writeTree σ v).1 rest).2 from rfl] at hkv
      rcases List.mem_cons.mp hkv with rfl | hkv2
      · exact hv.1
      · exact refGE_mono hlen (hrest.1 kv hkv2)
    · intro a ha ob hob
      rw [show (writeFields σ ((k, v) :: rest)).1
        = (writeFields (writeTree σ v).1 rest).1 from rfl] at hob
      by_cases hge : (writeTree σ v).1.length ≤ a
      · exact fieldsRefGE_mono hlen (hrest.2 a hge ob hob)
      · obtain ⟨Δ2, hΔ2⟩ := writeFields_extends (writeTree σ v).1 rest
        rw [hΔ2, List.getElem?_append_left (by omega)] at hob
        exact hv.2 a ha ob hob

end

mutual

theorem readTree_agree : ∀ (fuel : Nat) (σ1 σ2 : Store) (n : Nat),
    (∀ a, n ≤ a → σ2[a]? = σ1[a]?) →
    (∀ a, n ≤ a → ∀ ob, σ1[a]? = some ob → fieldsRefGE n ob) →
    ∀ (hv : HVal), refGE n hv → readTree fuel σ2 hv = readTree fuel σ1 hv
  | 0, _, _, _, _, _, hv, _ => by simp [readTree]
  | _ + 1, σ1, σ2, _, _, _, .prim p, _ => by simp [readTree]
  | fuel + 1, σ1, σ2, n, hagree, hregion, .ref a, href => by
    have ha : n ≤ a := href
    rw [readTree, readTree, hagree a ha]
    cases hσ : σ1[a]? with
    | none => rfl
    | some fields =>
      show Option.map JVal.obj (readFields fuel σ2 fields)
        = Option.map JVal.obj (readFields fuel σ1 fields)
      rw [readFields_agree fuel σ1 σ2 n hagree hregion fields (hregion a ha fields hσ)]
termination_by fuel _ _ _ _ _ _ _ => (fuel, 0)

theorem readFields_agree : ∀ (fuel : Nat) (σ1 σ2 : Store) (n : Nat),
    (∀ a, n ≤ a → σ2[a]? = σ1[a]?) →
    (∀ a, n ≤ a → ∀ ob, σ1[a]? = some ob → fieldsRefGE n ob) →
    ∀ (fields : List (String × HVal)), fieldsRefGE n fields →
      readFields fuel σ2 fields = readFields fuel σ1 fields
  | _, σ1, σ2, _, _, _, [], _ => by simp [readFields]
  | fuel, σ1, σ2, n, hagree, hregion, (k, hv) :: rest, hfields => by
    rw [readFields, readFields,
      readTree_agree fuel σ1 σ2 n hagree hregion hv
        (hfields (k, hv) (List.mem_cons_self _ _)),
      readFields_agree fuel σ1 σ2 n hagree hregion rest
        (fun kv hkv => hfields kv (List.mem_cons_of_mem _ hkv))]
termination_by fuel _ _ _ _ _ fields _ => (fuel, fields.length + 1)

end

/-- C8: (round-trip) for every successful construction, reading
colors.primary back out of a bundle theme via `getThemeValue` yields
exactly the color value stored in the corresponding caller-supplied
theme; (no aliasing) the store-level clone of a theme preserves every
pre-existing object record, returns a reference to fresh addresses
only, and its readback is unchanged under any store that agrees on the
fresh addresses — i.e. mutating the caller-owned objects after
construction cannot change the bundle theme. -/
theorem C8_roundtrip_and_no_aliasing :
    (∀ (config : AdapterConfig) (bundle : AdapterBundle) (ts : List (String × JVal))
        (name : String) (t : JVal),
      createPortableContentAdapter config = .ok bundle →
      config.themes = some ts → (ts.map Prod.fst).Nodup → (name, t) ∈ ts →
      ∃ pt, bundle.themes.lookup name = some pt ∧
        getThemeValue pt "colors.primary" JVal.undefined
          = getField (getField t "colors") "primary")
    ∧ (∀ (σ : Store) (t : JVal),
        (∀ (a : Nat) (ob : HObj), σ[a]? = some ob →
          ((processThemeCloneH σ t).1)[a]? = some ob)
        ∧ refGE σ.length (processThemeCloneH σ t).2
        ∧ (∀ (σ2 : Store) (fuel : Nat),
            (∀ a, σ.length ≤ a → σ2[a]? = ((processThemeCloneH σ t).1)[a]?) →
            readTree fuel σ2 (processThemeCloneH σ t).2
              = readTree fuel (processThemeCloneH σ t).1 (processThemeCloneH σ t).2)) := by
  constructor
  · intro config bundle ts name t hok hthemes hnodup hmem
    obtain ⟨ts2, bps, pts, hts2, hbps, hvalid, hpts, hbt, hbb⟩ := createAdapter_ok_inv hok
    rw [hthemes] at hts2
    have hts3 := Option.some.inj hts2
    subst hts3
    obtain ⟨pt, hpt, hlk⟩ := processAllThemes_lookup hpts hnodup hmem
    have hval := hvalid (name, t) hmem
    obtain ⟨hround, s, hs⟩ := processed_colors_primary hval hpt
    exact ⟨pt, by rw [hbt]; exact hlk, hround⟩
  · intro σ t
    have hext := writeTree_extends σ (jsonClone t)
    have hfresh := writeTree_fresh σ (jsonClone t)
    refine ⟨?_, hfresh.1, ?_⟩
    · intro a ob h
      obtain ⟨Δ, hΔ⟩ := hext
      rw [show (processThemeCloneH σ t).1 = (writeTree σ (jsonClone t)).1 from rfl, hΔ]
      exact getElem?_append_of_some h Δ
    · intro σ2 fuel hagree
      exact readTree_agree fuel (processThemeCloneH σ t).1 σ2 σ.length hagree
        hfresh.2 (processThemeCloneH σ t).2 hfresh.1

/-- Witness for C8: one theme round-trips through a concrete
construction, and readback of a concrete clone survives mutation of
the caller-owned record at address 0. -/
theorem C8_roundtrip_and_no_aliasing_witness :
    (∃ pt, exBundle2.themes.lookup "light" = some pt ∧
      getThemeValue pt "colors.primary" JVal.undefined
        = getField (getField exValidTheme "colors") "primary")
    ∧ (∀ fuel : Nat,
        readTree fuel
          ((processThemeCloneH [[("tainted", HVal.prim .null)]] exValidTheme).1.set 0 [])
          (processThemeCloneH [[("tainted", HVal.prim .null)]] exValidTheme).2
        = readTree fuel
            (processThemeCloneH [[("tainted", HVal.prim .null)]] exValidTheme).1
            (processThemeCloneH [[("tainted", HVal.prim .null)]] exValidTheme).2) := by
  constructor
  · exact C8_roundtrip_and_no_aliasing.1 exConfig2 exBundle2
      [("light", exValidTheme), ("dark", exValidTheme2)] "light" exValidTheme rfl rfl
      (by decide) (by simp)
  · intro fuel
    exact (C8_roundtrip_and_no_aliasing.2 [[("tainted", HVal.prim .null)]]
      exValidTheme).2.2 _ fuel
      (by
        intro a ha
        have ha2 : 1 ≤ a := by simpa using ha
        rw [List.getElem?_set_ne (by omega)])

end UnistylesAdapter
